import Mathlib

/-!
Verification of the synthetic-data-generation backend pipeline.

Shallow embedding of the Python source under `backend/`:
  * `modules/processor.py` — job expander (`process_yaml_config`), sample worker
    (`generate_sample_response`), dataset materializer / uploader (`upload_dataset`);
  * `modules/llm_client.py` — generation client (`generate_text`,
    `generate_structured_json`, `generate_response_with_metrics`,
    `generate_structured_response_with_metrics`, `create_dataset`, `upload_dataset`);
  * `models/YAMLConfig.py` — aggregate sums and derived-average properties.

Python strings are modelled as `List Char`, Python floats as `ℚ`, Python ints as
`ℤ` (or `ℕ` for loop counters).  Effectful calls (the LLM backend, MongoDB saves,
HTTP calls) are modelled by explicit outcome/environment values, and a Python
exception raised by such a call is an explicit outcome constructor.
-/

namespace SDG

/-- Whitespace stripped by Python `str.strip()` (the ASCII part, which is all the
repository's data uses). -/
def isPyWs (c : Char) : Bool :=
  c = ' ' || c = '\t' || c = '\n' || c = '\r' || c = Char.ofNat 11 || c = Char.ofNat 12

/-- Whitespace accepted between tokens by Python `json.loads` (` \t\n\r`). -/
def isJsonWs (c : Char) : Bool :=
  c = ' ' || c = '\t' || c = '\n' || c = '\r'

/-- Drop trailing characters satisfying `p`. -/
def dropTrailing (p : Char → Bool) (s : List Char) : List Char :=
  (s.reverse.dropWhile p).reverse

/-- Python `s.strip()`. -/
def pyStrip (s : List Char) : List Char :=
  dropTrailing isPyWs (s.dropWhile isPyWs)

/-- Python `needle in hay` substring test. -/
def pyContains : List Char → List Char → Bool
  | [], needle => needle.isEmpty
  | a :: t, needle => needle.isPrefixOf (a :: t) || pyContains t needle

/-- Python `s.startswith(c)` for a single character. -/
def startsWithCh (s : List Char) (c : Char) : Bool :=
  match s with
  | [] => false
  | a :: _ => a = c

/-- Python `s.endswith(c)` for a single character. -/
def endsWithCh (s : List Char) (c : Char) : Bool :=
  match s.getLast? with
  | none => false
  | some a => a = c

/-- Python `s.replace(old, new)` (all leftmost non-overlapping occurrences);
fuel-driven so that it is structurally recursive.  All call sites in the
repository pass a non-empty `old` (the `{input_request}` placeholder). -/
def pyReplaceAux (old new : List Char) : ℕ → List Char → List Char
  | _, [] => []
  | 0, s => s
  | fuel + 1, c :: rest =>
    if old.isPrefixOf (c :: rest) then
      new ++ pyReplaceAux old new fuel ((c :: rest).drop old.length)
    else
      c :: pyReplaceAux old new fuel rest

def pyReplace (s old new : List Char) : List Char :=
  pyReplaceAux old new s.length s

/-- Python `s.split(sep)` for a non-empty separator, fuel-driven. -/
def pySplitAux (sep : List Char) : ℕ → List Char → List Char → List (List Char)
  | _, acc, [] => [acc.reverse]
  | 0, acc, s => [acc.reverse ++ s]
  | fuel + 1, acc, c :: rest =>
    if sep.isPrefixOf (c :: rest) then
      acc.reverse :: pySplitAux sep fuel [] ((c :: rest).drop sep.length)
    else
      pySplitAux sep fuel (c :: acc) rest

def pySplit (s sep : List Char) : List (List Char) :=
  pySplitAux sep s.length [] s

theorem isPrefixOf_append (n s r : List Char) (h : n.isPrefixOf s = true) :
    n.isPrefixOf (s ++ r) = true := by
  induction n generalizing s with
  | nil => simp [List.isPrefixOf]
  | cons a t ih =>
    cases s with
    | nil => simp [List.isPrefixOf] at h
    | cons b u =>
      simp only [List.cons_append, List.isPrefixOf, Bool.and_eq_true] at h ⊢
      exact ⟨h.1, ih u h.2⟩

theorem pyContains_append_right (s t n : List Char) (h : pyContains t n = true) :
    pyContains (s ++ t) n = true := by
  induction s with
  | nil => simpa using h
  | cons a r ih =>
    simp only [List.cons_append, pyContains, Bool.or_eq_true]
    exact Or.inr ih

theorem pyContains_append_left (s t n : List Char) (h : pyContains s n = true) :
    pyContains (s ++ t) n = true := by
  induction s with
  | nil =>
    simp only [pyContains, List.isEmpty_iff] at h
    subst h
    cases t with
    | nil => rfl
    | cons a r => simp [pyContains, List.isPrefixOf]
  | cons a r ih =>
    simp only [pyContains, Bool.or_eq_true] at h
    simp only [List.cons_append, pyContains, Bool.or_eq_true]
    rcases h with h | h
    · exact Or.inl (isPrefixOf_append _ _ _ h)
    · exact Or.inr (ih h)

/-! ### Job Expander (`process_yaml_config`, processor.py lines 171-249)

The expander reads the configuration, repairs the prompt template, and derives
one work item per sample.  `random.choice` is modelled by an oracle
`pick : ℕ → ℕ` giving the chosen index for each position (reduced modulo the
pool size). The Celery `delay` submission is fire-and-forget, so the expander's
observable output is the list of submitted work items. -/

/-- The `{input_request}` substitution placeholder. -/
def inputMarker : List Char := "{input_request}".toList

/-- Trailer appended when the template lacks the placeholder
(processor.py line 198). -/
def ctxTrailer : List Char := "\n\nContext for this dataset: {input_request}".toList

/-- Marker whose absence triggers appending the JSON instruction block
(processor.py line 202). -/
def jsonMarker : List Char := "IMPORTANT: Return ONLY the JSON object".toList

/-- The `json_instructions` block appended by the expander
(processor.py lines 204-208). -/
def jsonInstructions : List Char :=
  "\n            \nIMPORTANT: Return ONLY the JSON object with the messages array containing exactly one user message and one assistant message.\nDo not include any explanations or additional text. The output must be valid JSON.\n".toList

/-- Placeholder example input used when the pool is empty
(processor.py line 183). -/
def placeholderInput : List Char :=
  "Create a sample dataset entry relevant to this topic".toList

/-- First repair step (processor.py lines 194-199): append the placeholder
trailer when the template lacks `{input_request}`. -/
def repairStep1 (t : List Char) : List Char :=
  if pyContains t inputMarker then t else t ++ ctxTrailer

/-- Second repair step (processor.py lines 202-209): append the JSON
instruction block when the template lacks the instruction marker. -/
def repairStep2 (t : List Char) : List Char :=
  if pyContains t jsonMarker then t else t ++ jsonInstructions

/-- The two-step prompt repair of `process_yaml_config`
(processor.py lines 193-209). -/
def repairPrompt (t : List Char) : List Char :=
  repairStep2 (repairStep1 t)

/-- Quote clean-up of the selected example input (processor.py lines 222-223):
`selected_input[1:-1]` when it both starts and ends with `"`. -/
def cleanInput (s : List Char) : List Char :=
  if startsWithCh s '"' && endsWithCh s '"' then (s.drop 1).dropLast else s

/-- Relevant fields of a `YAMLConfig` document as read by the expander
(via the backward-compatibility properties of `models/YAMLConfig.py`). -/
structure ExpanderConfig where
  id : List Char
  user_prompt : List Char
  number_of_samples : ℕ
  min_temp : ℚ
  max_temp : ℚ
  top_p : ℚ
  max_tokens : ℤ
  seed_value : ℤ
  model : List Char
  output_format : List Char
  example_inputs : List (List Char)

/-- One work item submitted by `generate_sample_response.delay(...)`
(processor.py lines 231-240). -/
structure WorkItem where
  yaml_config_id : List Char
  temperature : ℚ
  top_p : ℚ
  prompt : List Char
  max_tokens : ℤ
  seed_value : ℤ
  model : List Char
  output_format : List Char
deriving DecidableEq

/-- Fallback work item for `List.getD` statements. -/
def dummyItem : WorkItem :=
  { yaml_config_id := [], temperature := 0, top_p := 0, prompt := [],
    max_tokens := 0, seed_value := 0, model := [], output_format := [] }

/-- Temperature schedule of the expander (processor.py line 216):
`min_temp + (max_temp - min_temp) * (i / max(1, number_of_samples - 1))`. -/
def sampleTemperature (cfg : ExpanderConfig) (i : ℕ) : ℚ :=
  cfg.min_temp + (cfg.max_temp - cfg.min_temp) *
    ((i : ℚ) / ((max 1 (cfg.number_of_samples - 1) : ℕ) : ℚ))

/-- The example pool (processor.py lines 180-183). -/
def examplePool (cfg : ExpanderConfig) : List (List Char) :=
  if cfg.example_inputs.isEmpty then [placeholderInput] else cfg.example_inputs

/-- The expander `process_yaml_config` (processor.py lines 171-249): the list of
work items submitted, in submission order. -/
def process_yaml_config (cfg : ExpanderConfig) (pick : ℕ → ℕ) : List WorkItem :=
  let examples := examplePool cfg
  let tpl := repairPrompt cfg.user_prompt
  (List.range cfg.number_of_samples).map (fun i =>
    let selected := cleanInput (examples.getD (pick i % examples.length) [])
    { yaml_config_id := cfg.id,
      temperature := sampleTemperature cfg i,
      top_p := cfg.top_p,
      prompt := pyReplace tpl inputMarker selected,
      max_tokens := cfg.max_tokens,
      seed_value := cfg.seed_value,
      model := cfg.model,
      output_format := cfg.output_format })

theorem repairStep1_contains (t : List Char) :
    pyContains (repairStep1 t) inputMarker = true := by
  have hTrailer : pyContains ctxTrailer inputMarker = true := by decide
  unfold repairStep1
  split
  · assumption
  · exact pyContains_append_right _ _ _ hTrailer

theorem repairStep2_preserves (t n : List Char) (h : pyContains t n = true) :
    pyContains (repairStep2 t) n = true := by
  unfold repairStep2
  split
  · exact h
  · exact pyContains_append_left _ _ _ h

theorem repairPrompt_contains_input (t : List Char) :
    pyContains (repairPrompt t) inputMarker = true :=
  repairStep2_preserves _ _ (repairStep1_contains t)

theorem repairPrompt_contains_json (t : List Char) :
    pyContains (repairPrompt t) jsonMarker = true := by
  have hInstr : pyContains jsonInstructions jsonMarker = true := by decide
  unfold repairPrompt repairStep2
  split
  · assumption
  · exact pyContains_append_right _ _ _ hInstr

theorem repairPrompt_fixed (t : List Char)
    (h1 : pyContains t inputMarker = true) (h2 : pyContains t jsonMarker = true) :
    repairPrompt t = t := by
  unfold repairPrompt repairStep1 repairStep2
  simp [h1, h2]

theorem getD_map_range {α : Type} (f : ℕ → α) (n i : ℕ) (d : α) (h : i < n) :
    ((List.range n).map f).getD i d = f i := by
  rw [List.getD_eq_getElem?_getD, List.getElem?_map, List.getElem?_range h]
  rfl

/-- C9: the prompt-repair step of the Job Expander (appending the
`{input_request}` trailer when the placeholder is missing, and the JSON
instruction block when the instruction marker is missing) is idempotent:
repairing an already-repaired template returns it unchanged. -/
theorem claim_C9_repair_idempotent (t : List Char) :
    repairPrompt (repairPrompt t) = repairPrompt t :=
  repairPrompt_fixed _ (repairPrompt_contains_input t) (repairPrompt_contains_json t)

/-- C1: for `number_of_samples = N ≥ 1` the Job Expander submits exactly `N`
work items; item `i`'s temperature is
`min + (max - min) * i / max 1 (N - 1)`; item `0`'s temperature is `min`; for
`N ≥ 2` item `N-1`'s temperature is `max`; and for `N = 1` every item's
temperature is `min`. -/
theorem claim_C1_temperature_schedule (cfg : ExpanderConfig) (pick : ℕ → ℕ)
    (hN : 1 ≤ cfg.number_of_samples) :
    (process_yaml_config cfg pick).length = cfg.number_of_samples ∧
    (∀ i, i < cfg.number_of_samples →
      ((process_yaml_config cfg pick).getD i dummyItem).temperature =
        cfg.min_temp + (cfg.max_temp - cfg.min_temp) *
          ((i : ℚ) / ((max 1 (cfg.number_of_samples - 1) : ℕ) : ℚ))) ∧
    ((process_yaml_config cfg pick).getD 0 dummyItem).temperature = cfg.min_temp ∧
    (2 ≤ cfg.number_of_samples →
      ((process_yaml_config cfg pick).getD (cfg.number_of_samples - 1) dummyItem).temperature =
        cfg.max_temp) ∧
    (cfg.number_of_samples = 1 →
      ∀ i, i < cfg.number_of_samples →
        ((process_yaml_config cfg pick).getD i dummyItem).temperature = cfg.min_temp) := by
  have hitem : ∀ i, i < cfg.number_of_samples →
      ((process_yaml_config cfg pick).getD i dummyItem).temperature =
        sampleTemperature cfg i := by
    intro i hi
    unfold process_yaml_config
    rw [getD_map_range _ _ _ _ hi]
  refine ⟨by simp [process_yaml_config], fun i hi => hitem i hi, ?_, ?_, ?_⟩
  · rw [hitem 0 hN]
    simp [sampleTemperature]
  · intro h2
    rw [hitem _ (Nat.sub_lt (by omega) one_pos)]
    unfold sampleTemperature
    have hmax : max 1 (cfg.number_of_samples - 1) = cfg.number_of_samples - 1 := by omega
    rw [hmax]
    have hpos : (0 : ℚ) < ((cfg.number_of_samples - 1 : ℕ) : ℚ) := by
      exact_mod_cast (by omega : 0 < cfg.number_of_samples - 1)
    rw [div_self hpos.ne']
    ring
  · intro h1 i hi
    have hi0 : i = 0 := by omega
    subst hi0
    rw [hitem 0 hN]
    simp [sampleTemperature]

/-- Concrete configuration used by witness theorems: `N = 3`,
temperature range `[1/10, 3/10]`. -/
def witnessCfg : ExpanderConfig :=
  { id := ['c'], user_prompt := [], number_of_samples := 3,
    min_temp := 1/10, max_temp := 3/10, top_p := 9/10,
    max_tokens := 100, seed_value := 42, model := ['m'], output_format := ['j'],
    example_inputs := [['a']] }

/-- Witness for C1 at `witnessCfg`: three items with middle temperature `2/10`. -/
theorem claim_C1_witness :
    1 ≤ witnessCfg.number_of_samples ∧
    (process_yaml_config witnessCfg (fun _ => 0)).length = 3 ∧
    ((process_yaml_config witnessCfg (fun _ => 0)).getD 1 dummyItem).temperature = 2/10 ∧
    ((process_yaml_config witnessCfg (fun _ => 0)).getD 0 dummyItem).temperature = 1/10 ∧
    ((process_yaml_config witnessCfg (fun _ => 0)).getD 2 dummyItem).temperature = 3/10 := by
  have h := claim_C1_temperature_schedule witnessCfg (fun _ => 0) (by decide)
  refine ⟨by decide, ?_, ?_, ?_, ?_⟩
  · rw [h.1]
    rfl
  · have h1 := h.2.1 1 (by decide)
    rw [h1]
    show (1 : ℚ)/10 + (3/10 - 1/10) * ((1 : ℚ) / ((max 1 (3 - 1) : ℕ) : ℚ)) = 2/10
    norm_num
  · rw [h.2.2.1]
    rfl
  · simpa [witnessCfg] using h.2.2.2.1 (by decide)

theorem startsWithCh_cons (a : Char) (t : List Char) (c : Char) :
    startsWithCh (a :: t) c = true ↔ a = c := by
  simp [startsWithCh]

theorem endsWithCh_iff (s : List Char) (c : Char) :
    endsWithCh s c = true ↔ s.getLast? = some c := by
  unfold endsWithCh
  cases h : s.getLast? <;> simp

theorem cleanInput_quoted (s : List Char) (hs : startsWithCh s '"' = true)
    (he : endsWithCh s '"' = true) :
    cleanInput s = (s.drop 1).dropLast := by
  unfold cleanInput
  rw [hs, he]
  simp

theorem cleanInput_unquoted (s : List Char)
    (h : ¬(startsWithCh s '"' = true ∧ endsWithCh s '"' = true)) :
    cleanInput s = s := by
  unfold cleanInput
  by_cases h1 : startsWithCh s '"' = true
  · by_cases h2 : endsWithCh s '"' = true
    · exact absurd ⟨h1, h2⟩ h
    · have h2' : endsWithCh s '"' = false := by
        cases hb : endsWithCh s '"'
        · rfl
        · exact absurd hb h2
      rw [h1, h2']
      simp
  · have h1' : startsWithCh s '"' = false := by
      cases hb : startsWithCh s '"'
      · rfl
      · exact absurd hb h1
    rw [h1']
    simp

theorem cleanInput_decomp (s : List Char) (hs : startsWithCh s '"' = true)
    (he : endsWithCh s '"' = true) (hlen : 2 ≤ s.length) :
    s = '"' :: (cleanInput s ++ ['"']) := by
  cases s with
  | nil => simp at hlen
  | cons a t =>
    have ha : a = '"' := (startsWithCh_cons a t '"').mp hs
    rcases List.eq_nil_or_concat t with hnil | ⟨ys, y, hy⟩
    · rw [hnil] at hlen
      simp at hlen
    · have hy' : t = ys ++ [y] := by
        rw [hy]
        simp [List.concat_eq_append]
      have hlast : (a :: t).getLast? = some y := by
        rw [hy']
        rw [show a :: (ys ++ [y]) = (a :: ys) ++ [y] from rfl]
        rw [List.getLast?_concat]
      have hyq : y = '"' := by
        have := (endsWithCh_iff (a :: t) '"').mp he
        rw [hlast] at this
        exact Option.some.inj this
      have hclean : cleanInput (a :: t) = ys := by
        rw [cleanInput_quoted _ hs he]
        rw [List.drop_one, List.tail_cons, hy', List.dropLast_concat]
      rw [hclean, ha, hy', hyq]

/-- C10: each work item's prompt substitutes the selected example with its one
surrounding pair of double quotes removed (when present); otherwise the example
is substituted unchanged. -/
theorem claim_C10_quote_stripping (cfg : ExpanderConfig) (pick : ℕ → ℕ) (i : ℕ)
    (hi : i < cfg.number_of_samples) :
    ((startsWithCh ((examplePool cfg).getD (pick i % (examplePool cfg).length) []) '"' = true ∧
      endsWithCh ((examplePool cfg).getD (pick i % (examplePool cfg).length) []) '"' = true) →
      cleanInput ((examplePool cfg).getD (pick i % (examplePool cfg).length) []) =
        (((examplePool cfg).getD (pick i % (examplePool cfg).length) []).drop 1).dropLast ∧
      (2 ≤ ((examplePool cfg).getD (pick i % (examplePool cfg).length) []).length →
        (examplePool cfg).getD (pick i % (examplePool cfg).length) [] =
          '"' :: (cleanInput ((examplePool cfg).getD (pick i % (examplePool cfg).length) []) ++ ['"']))) ∧
    (¬(startsWithCh ((examplePool cfg).getD (pick i % (examplePool cfg).length) []) '"' = true ∧
       endsWithCh ((examplePool cfg).getD (pick i % (examplePool cfg).length) []) '"' = true) →
      cleanInput ((examplePool cfg).getD (pick i % (examplePool cfg).length) []) =
        (examplePool cfg).getD (pick i % (examplePool cfg).length) []) ∧
    ((process_yaml_config cfg pick).getD i dummyItem).prompt =
      pyReplace (repairPrompt cfg.user_prompt) inputMarker
        (cleanInput ((examplePool cfg).getD (pick i % (examplePool cfg).length) [])) := by
  refine ⟨?_, ?_, ?_⟩
  · rintro ⟨hs, he⟩
    exact ⟨cleanInput_quoted _ hs he, fun hlen => cleanInput_decomp _ hs he hlen⟩
  · intro h
    exact cleanInput_unquoted _ h
  · unfold process_yaml_config
    rw [getD_map_range _ _ _ _ hi]

/-- Configuration whose single example input is the quoted string `"hi"`. -/
def witnessCfgQ : ExpanderConfig :=
  { id := ['c'], user_prompt := [], number_of_samples := 1,
    min_temp := 1/10, max_temp := 3/10, top_p := 9/10,
    max_tokens := 100, seed_value := 42, model := ['m'], output_format := ['j'],
    example_inputs := [['"', 'h', 'i', '"']] }

/-- Witness for C10 at a quoted selected example: the outer quotes of `"hi"`
are removed before substitution. -/
theorem claim_C10_witness :
    ((process_yaml_config witnessCfgQ (fun _ => 0)).getD 0 dummyItem).prompt =
      pyReplace (repairPrompt witnessCfgQ.user_prompt) inputMarker ['h', 'i'] := by
  have h := claim_C10_quote_stripping witnessCfgQ (fun _ => 0) 0 (by decide)
  have h3 := h.2.2
  have hc : cleanInput ((examplePool witnessCfgQ).getD
      ((fun _ => 0) 0 % (examplePool witnessCfgQ).length) []) = ['h', 'i'] := by decide
  rw [h3, hc]

/-! ### A model of Python `json.loads` / `json.dumps`

JSON values as produced by `json.loads` and consumed by `json.dumps` with its
default separators (`", "` and `": "`).  JSON numbers are modelled as integers
(floating point is outside the embedding); `json.dumps` is modelled with
`ensure_ascii` escaping only for control characters (non-ASCII text is emitted
verbatim, which parses back identically); lone surrogate `\uXXXX` escapes,
which Lean `Char` cannot represent, decode to the default character. -/

mutual
inductive Json where
  | null : Json
  | boolJ : Bool → Json
  | num : ℤ → Json
  | str : List Char → Json
  | arr : JsonList → Json
  | obj : JsonMembers → Json
inductive JsonList where
  | nil : JsonList
  | cons : Json → JsonList → JsonList
inductive JsonMembers where
  | nil : JsonMembers
  | cons : List Char → Json → JsonMembers → JsonMembers
end

deriving instance DecidableEq for Json, JsonList, JsonMembers

def JsonList.length : JsonList → ℕ
  | .nil => 0
  | .cons _ t => t.length + 1

def JsonMembers.length : JsonMembers → ℕ
  | .nil => 0
  | .cons _ _ t => t.length + 1

/-- Python `d[key]` on the dict produced by `json.loads`: with duplicate keys
the later occurrence wins. -/
def memLookup : JsonMembers → List Char → Option Json
  | .nil, _ => none
  | .cons k v t, key =>
    match memLookup t key with
    | some r => some r
    | none => if k = key then some v else none

/-- Python `len(x)`: defined for strings, lists and dicts; `none` models the
`TypeError` raised on other values. -/
def pyLen : Json → Option ℕ
  | .str s => some s.length
  | .arr l => some l.length
  | .obj m => some m.length
  | _ => none

def digitChar (n : ℕ) : Char := Char.ofNat (48 + n)

def natDigitsAux : ℕ → ℕ → List Char
  | 0, _ => []
  | fuel + 1, n =>
    if n < 10 then [digitChar n]
    else natDigitsAux fuel (n / 10) ++ [digitChar (n % 10)]

def natRepr (n : ℕ) : List Char := natDigitsAux (n + 1) n

def intRepr (i : ℤ) : List Char :=
  if i < 0 then '-' :: natRepr i.natAbs else natRepr i.natAbs

def hexDigitChar (n : ℕ) : Char :=
  if n < 10 then Char.ofNat (48 + n) else Char.ofNat (87 + n)

/-- Escaping of one character inside a JSON string literal, as
`json.dumps` does. -/
def escapeChar (c : Char) : List Char :=
  if c = '"' then ['\\', '"']
  else if c = '\\' then ['\\', '\\']
  else if c = '\n' then ['\\', 'n']
  else if c = '\r' then ['\\', 'r']
  else if c = '\t' then ['\\', 't']
  else if c = Char.ofNat 8 then ['\\', 'b']
  else if c = Char.ofNat 12 then ['\\', 'f']
  else if c.toNat < 32 then
    ['\\', 'u', '0', '0', hexDigitChar (c.toNat / 16), hexDigitChar (c.toNat % 16)]
  else [c]

def escBody : List Char → List Char
  | [] => []
  | c :: r => escapeChar c ++ escBody r

def dumpStringL (s : List Char) : List Char := '"' :: (escBody s ++ ['"'])

mutual
/-- `json.dumps` with default separators. -/
def dumpV : Json → List Char
  | .null => ['n', 'u', 'l', 'l']
  | .boolJ true => ['t', 'r', 'u', 'e']
  | .boolJ false => ['f', 'a', 'l', 's', 'e']
  | .num n => intRepr n
  | .str s => dumpStringL s
  | .arr xs => '[' :: (dumpArr xs ++ [']'])
  | .obj ms => '{' :: (dumpObj ms ++ ['}'])
def dumpArr : JsonList → List Char
  | .nil => []
  | .cons x .nil => dumpV x
  | .cons x (.cons y t) => dumpV x ++ [',', ' '] ++ dumpArr (.cons y t)
def dumpObj : JsonMembers → List Char
  | .nil => []
  | .cons k v .nil => dumpStringL k ++ [':', ' '] ++ dumpV v
  | .cons k v (.cons k2 v2 t) =>
    dumpStringL k ++ [':', ' '] ++ dumpV v ++ [',', ' '] ++ dumpObj (.cons k2 v2 t)
end

def isDigitCh (c : Char) : Bool := 48 ≤ c.toNat && c.toNat ≤ 57

def hexVal (c : Char) : Option ℕ :=
  if '0' ≤ c ∧ c ≤ '9' then some (c.toNat - 48)
  else if 'a' ≤ c ∧ c ≤ 'f' then some (c.toNat - 87)
  else if 'A' ≤ c ∧ c ≤ 'F' then some (c.toNat - 55)
  else none

def skipWsL (s : List Char) : List Char := s.dropWhile isJsonWs

/-- Decode one escape sequence after a backslash: the decoded character and
the remaining input. -/
def parseEsc : List Char → Option (Char × List Char)
  | [] => none
  | e :: r2 =>
    if e = '"' then some ('"', r2)
    else if e = '\\' then some ('\\', r2)
    else if e = '/' then some ('/', r2)
    else if e = 'b' then some (Char.ofNat 8, r2)
    else if e = 'f' then some (Char.ofNat 12, r2)
    else if e = 'n' then some ('\n', r2)
    else if e = 'r' then some ('\r', r2)
    else if e = 't' then some ('\t', r2)
    else if e = 'u' then
      match r2 with
      | a :: b :: c :: d :: r3 =>
        (match hexVal a, hexVal b, hexVal c, hexVal d with
        | some x, some y, some z, some w =>
          some (Char.ofNat (((x * 16 + y) * 16 + z) * 16 + w), r3)
        | _, _, _, _ => none)
      | _ => none
    else none

/-- Body of a JSON string literal after the opening quote (fuel-driven);
returns the decoded characters and the remaining input after the closing
quote.  Unescaped control characters are rejected, as by Python's strict
decoder. -/
def parseStrBody : ℕ → List Char → Option (List Char × List Char)
  | 0, _ => none
  | fuel + 1, s =>
    match s with
    | [] => none
    | c :: r =>
      if c = '"' then some ([], r)
      else if c = '\\' then
        match parseEsc r with
        | some (ch, r2) => (parseStrBody fuel r2).map (fun p => (ch :: p.1, p.2))
        | none => none
      else if c.toNat < 32 then none
      else (parseStrBody fuel r).map (fun p => (c :: p.1, p.2))

def digitsVal (ds : List Char) : ℕ :=
  ds.foldl (fun acc c => acc * 10 + (c.toNat - 48)) 0

def parseNatNum (s : List Char) : Option (ℕ × List Char) :=
  if (s.takeWhile isDigitCh).isEmpty then none
  else if 2 ≤ (s.takeWhile isDigitCh).length ∧ (s.takeWhile isDigitCh).headD '0' = '0' then none
  else some (digitsVal (s.takeWhile isDigitCh), s.dropWhile isDigitCh)

def parseNumTok (s : List Char) : Option (Json × List Char) :=
  match s with
  | '-' :: r => (parseNatNum r).map (fun p => (Json.num (-(p.1 : ℤ)), p.2))
  | _ => (parseNatNum s).map (fun p => (Json.num (p.1 : ℤ), p.2))

def expectLit (lit s : List Char) : Option (List Char) :=
  if lit.isPrefixOf s then some (s.drop lit.length) else none

mutual
/-- Recursive-descent JSON value reader (fuel-driven); input has no leading
whitespace. -/
def parseVal : ℕ → List Char → Option (Json × List Char)
  | 0, _ => none
  | fuel + 1, s =>
    match s with
    | [] => none
    | c :: r =>
      if c = 'n' then (expectLit ['u', 'l', 'l'] r).map (fun r2 => (Json.null, r2))
      else if c = 't' then (expectLit ['r', 'u', 'e'] r).map (fun r2 => (Json.boolJ true, r2))
      else if c = 'f' then (expectLit ['a', 'l', 's', 'e'] r).map (fun r2 => (Json.boolJ false, r2))
      else if c = '"' then (parseStrBody fuel r).map (fun p => (Json.str p.1, p.2))
      else if c = '[' then
        (if startsWithCh (skipWsL r) ']' = true then some (Json.arr JsonList.nil, (skipWsL r).tail)
         else (parseElems fuel (skipWsL r)).map (fun p => (Json.arr p.1, p.2)))
      else if c = '{' then
        (if startsWithCh (skipWsL r) '}' = true then some (Json.obj JsonMembers.nil, (skipWsL r).tail)
         else (parseMembers fuel (skipWsL r)).map (fun p => (Json.obj p.1, p.2)))
      else parseNumTok (c :: r)
/-- Comma-separated values up to the closing `]` (input at a value). -/
def parseElems : ℕ → List Char → Option (JsonList × List Char)
  | 0, _ => none
  | fuel + 1, s =>
    (parseVal fuel s).bind (fun vr =>
      if startsWithCh (skipWsL vr.2) ',' = true then
        (parseElems fuel (skipWsL (skipWsL vr.2).tail)).map
          (fun p => (JsonList.cons vr.1 p.1, p.2))
      else if startsWithCh (skipWsL vr.2) ']' = true then
        some (JsonList.cons vr.1 JsonList.nil, (skipWsL vr.2).tail)
      else none)
/-- Comma-separated `"key": value` members up to the closing `}`
(input at a key). -/
def parseMembers : ℕ → List Char → Option (JsonMembers × List Char)
  | 0, _ => none
  | fuel + 1, s =>
    if startsWithCh s '"' = true then
      (parseStrBody fuel s.tail).bind (fun kr =>
        if startsWithCh (skipWsL kr.2) ':' = true then
          (parseVal fuel (skipWsL (skipWsL kr.2).tail)).bind (fun vr =>
            if startsWithCh (skipWsL vr.2) ',' = true then
              (parseMembers fuel (skipWsL (skipWsL vr.2).tail)).map
                (fun p => (JsonMembers.cons kr.1 vr.1 p.1, p.2))
            else if startsWithCh (skipWsL vr.2) '}' = true then
              some (JsonMembers.cons kr.1 vr.1 JsonMembers.nil, (skipWsL vr.2).tail)
            else none)
        else none)
    else none
end

/-- Python `json.loads`: parse a complete document, allowing surrounding
whitespace only. -/
def parseJson (s : List Char) : Option Json :=
  match parseVal (s.length + 1) (skipWsL s) with
  | some (v, rest) => if (skipWsL rest).isEmpty then some v else none
  | none => none

/-! ### Decimal representation lemmas -/

theorem isDigitCh_digitChar (n : ℕ) (h : n < 10) : isDigitCh (digitChar n) = true := by
  interval_cases n <;> decide

theorem digitChar_ne_zero (n : ℕ) (h1 : 1 ≤ n) (h2 : n < 10) : digitChar n ≠ '0' := by
  interval_cases n <;> decide

theorem digitChar_val (n : ℕ) (h : n < 10) : (digitChar n).toNat - 48 = n := by
  interval_cases n <;> decide

theorem natDigitsAux_digits :
    ∀ fuel n c, c ∈ natDigitsAux fuel n → isDigitCh c = true := by
  intro fuel
  induction fuel with
  | zero => intro n c hc; simp [natDigitsAux] at hc
  | succ f ih =>
    intro n c hc
    unfold natDigitsAux at hc
    split at hc
    · next h =>
      simp only [List.mem_singleton] at hc
      subst hc
      exact isDigitCh_digitChar n h
    · next h =>
      rcases List.mem_append.mp hc with h1 | h1
      · exact ih _ _ h1
      · simp only [List.mem_singleton] at h1
        subst h1
        exact isDigitCh_digitChar _ (Nat.mod_lt _ (by omega))

theorem natDigitsAux_ne_nil (fuel n : ℕ) (h : 0 < fuel) :
    natDigitsAux fuel n ≠ [] := by
  cases fuel with
  | zero => omega
  | succ f =>
    unfold natDigitsAux
    split
    · simp
    · simp

theorem digitsVal_append (a : List Char) (d : Char) :
    digitsVal (a ++ [d]) = digitsVal a * 10 + (d.toNat - 48) := by
  simp [digitsVal, List.foldl_append]

theorem natDigitsAux_val :
    ∀ fuel n, n < 10 ^ fuel → digitsVal (natDigitsAux fuel n) = n := by
  intro fuel
  induction fuel with
  | zero => intro n h; simp at h; simp [h, natDigitsAux, digitsVal]
  | succ f ih =>
    intro n h
    unfold natDigitsAux
    split
    · next h10 =>
      show digitsVal [digitChar n] = n
      have hv := digitChar_val n h10
      simp only [digitsVal, List.foldl_cons, List.foldl_nil, Nat.zero_mul, Nat.zero_add]
      omega
    · next h10 =>
      rw [digitsVal_append]
      have hdiv : n / 10 < 10 ^ f := by
        rw [pow_succ] at h
        omega
      rw [ih _ hdiv, digitChar_val _ (Nat.mod_lt _ (by omega))]
      omega

theorem natRepr_val (n : ℕ) : digitsVal (natRepr n) = n := by
  apply natDigitsAux_val
  calc n < 10 ^ n := Nat.lt_pow_self (by norm_num) n
  _ ≤ 10 ^ (n + 1) := Nat.pow_le_pow_right (by norm_num) (by omega)

theorem natRepr_digits (n : ℕ) : ∀ c ∈ natRepr n, isDigitCh c = true :=
  fun _c hc => natDigitsAux_digits _ _ _ hc

theorem natRepr_ne_nil (n : ℕ) : natRepr n ≠ [] :=
  natDigitsAux_ne_nil _ _ (by omega)

theorem natDigitsAux_head_ne_zero :
    ∀ fuel n c t, 0 < n → n < 10 ^ fuel → natDigitsAux fuel n = c :: t → c ≠ '0' := by
  intro fuel
  induction fuel with
  | zero => intro n c t h0 h1; omega
  | succ f ih =>
    intro n c t h0 h1 heq
    unfold natDigitsAux at heq
    split at heq
    · next h10 =>
      simp only [List.cons.injEq] at heq
      rw [← heq.1]
      exact digitChar_ne_zero n h0 h10
    · next h10 =>
      have hf : 0 < f := by
        by_contra hf0
        have : f = 0 := by omega
        subst this
        simp at h1
        omega
      have hne := natDigitsAux_ne_nil f (n / 10) hf
      rcases hd : natDigitsAux f (n / 10) with _ | ⟨c2, t2⟩
      · exact absurd hd hne
      · rw [hd] at heq
        simp only [List.cons_append, List.cons.injEq] at heq
        rw [← heq.1]
        refine ih (n / 10) c2 t2 (by omega) ?_ hd
        rw [pow_succ] at h1
        omega

theorem natRepr_head_ne_zero (n : ℕ) (h : 0 < n) :
    ∀ c t, natRepr n = c :: t → c ≠ '0' := by
  intro c t heq
  refine natDigitsAux_head_ne_zero (n + 1) n c t h ?_ heq
  calc n < 10 ^ n := Nat.lt_pow_self (by norm_num) n
  _ ≤ 10 ^ (n + 1) := Nat.pow_le_pow_right (by norm_num) (by omega)

/-! ### takeWhile / dropWhile helpers -/

theorem takeWhile_append_all (p : Char → Bool) (a b : List Char)
    (ha : ∀ c ∈ a, p c = true) :
    (a ++ b).takeWhile p = a ++ b.takeWhile p := by
  induction a with
  | nil => simp
  | cons c t ih =>
    have hc := ha c (List.mem_cons_self c t)
    have iht := ih (fun d hd => ha d (List.mem_cons_of_mem c hd))
    simp [List.takeWhile_cons, hc, iht]

theorem dropWhile_append_all (p : Char → Bool) (a b : List Char)
    (ha : ∀ c ∈ a, p c = true) :
    (a ++ b).dropWhile p = b.dropWhile p := by
  induction a with
  | nil => simp
  | cons c t ih =>
    have hc := ha c (List.mem_cons_self c t)
    have iht := ih (fun d hd => ha d (List.mem_cons_of_mem c hd))
    simp [List.dropWhile_cons, hc, iht]

theorem takeWhile_nil_of_head (p : Char → Bool) (b : List Char)
    (hb : b.takeWhile p = [] ∨ b = []) : b.takeWhile p = [] := by
  rcases hb with h | h
  · exact h
  · simp [h]

theorem dropWhile_eq_self_of_head (p : Char → Bool) (c : Char) (t : List Char)
    (h : p c = false) : (c :: t).dropWhile p = c :: t := by
  simp [List.dropWhile_cons, h]

theorem takeWhile_eq_nil_of_head (p : Char → Bool) (c : Char) (t : List Char)
    (h : p c = false) : (c :: t).takeWhile p = [] := by
  simp [List.takeWhile_cons, h]

/-! ### Number token round-trip -/

theorem parseNatNum_repr (n : ℕ) (rest : List Char)
    (hrest : rest.takeWhile isDigitCh = []) :
    parseNatNum (natRepr n ++ rest) = some (n, rest) := by
  have htw : (natRepr n ++ rest).takeWhile isDigitCh = natRepr n := by
    rw [takeWhile_append_all _ _ _ (natRepr_digits n), hrest, List.append_nil]
  have hdw : (natRepr n ++ rest).dropWhile isDigitCh = rest := by
    rw [dropWhile_append_all _ _ _ (natRepr_digits n)]
    rcases rest with _ | ⟨c, t⟩
    · rfl
    · have hpc : isDigitCh c = false := by
        rcases hb : isDigitCh c with _ | _
        · rfl
        · rw [List.takeWhile_cons, hb] at hrest
          simp at hrest
      exact dropWhile_eq_self_of_head _ _ _ hpc
  unfold parseNatNum
  rw [htw, hdw]
  rcases hnr : natRepr n with _ | ⟨c, t⟩
  · exact absurd hnr (natRepr_ne_nil n)
  · simp only [List.isEmpty_cons, Bool.false_eq_true, if_false]
    have hcond : ¬(2 ≤ (c :: t).length ∧ (c :: t).headD '0' = '0') := by
      rintro ⟨h2, h0⟩
      rcases Nat.eq_zero_or_pos n with hn0 | hn0
      · subst hn0
        have h01 : natRepr 0 = ['0'] := rfl
        rw [h01] at hnr
        have ht : t = [] := by
          have := hnr.symm
          simp only [List.cons.injEq] at this
          exact this.2
        rw [ht] at h2
        simp at h2
      · exact natRepr_head_ne_zero n hn0 c t hnr (by simpa using h0)
    rw [if_neg hcond, ← hnr, natRepr_val]

theorem isDigitCh_ne_dash (c : Char) (h : isDigitCh c = true) : c ≠ '-' := by
  intro hc
  subst hc
  exact absurd h (by decide)

theorem parseNumTok_not_dash (c : Char) (x : List Char) (h : c ≠ '-') :
    parseNumTok (c :: x) =
      (parseNatNum (c :: x)).map (fun p => (Json.num (p.1 : ℤ), p.2)) := by
  unfold parseNumTok
  split
  · next heq => exact absurd (List.cons.inj heq.symm).1 (Ne.symm h)
  · rfl

theorem parseNumTok_repr (i : ℤ) (rest : List Char)
    (hrest : rest.takeWhile isDigitCh = []) :
    parseNumTok (intRepr i ++ rest) = some (Json.num i, rest) := by
  unfold intRepr
  split
  · next hneg =>
    have hstep : parseNumTok ('-' :: (natRepr i.natAbs ++ rest)) =
        (parseNatNum (natRepr i.natAbs ++ rest)).map
          (fun p => (Json.num (-(p.1 : ℤ)), p.2)) := rfl
    show parseNumTok ('-' :: (natRepr i.natAbs ++ rest)) = _
    rw [hstep, parseNatNum_repr _ _ hrest]
    simp only [Option.map_some']
    have : (-(i.natAbs : ℤ)) = i := by omega
    rw [this]
  · next hpos =>
    rcases hnr : natRepr i.natAbs with _ | ⟨c, t⟩
    · exact absurd hnr (natRepr_ne_nil _)
    · have hc : isDigitCh c = true := natRepr_digits _ c (by rw [hnr]; simp)
      rw [List.cons_append, parseNumTok_not_dash c _ (isDigitCh_ne_dash c hc)]
      rw [← List.cons_append, ← hnr]
      rw [parseNatNum_repr _ _ hrest]
      simp only [Option.map_some']
      have : ((i.natAbs : ℤ)) = i := by omega
      rw [this]

/-! ### String literal round-trip -/

theorem hexVal_hexDigitChar (k : ℕ) (h : k < 16) : hexVal (hexDigitChar k) = some k := by
  interval_cases k <;> decide

theorem parseStrBody_succ (fuel : ℕ) (c : Char) (r : List Char) :
    parseStrBody (fuel + 1) (c :: r) =
      if c = '"' then some ([], r)
      else if c = '\\' then
        match parseEsc r with
        | some (ch, r2) => (parseStrBody fuel r2).map (fun p => (ch :: p.1, p.2))
        | none => none
      else if c.toNat < 32 then none
      else (parseStrBody fuel r).map (fun p => (c :: p.1, p.2)) := rfl

theorem escapeChar_esc (c : Char) (x : List Char) :
    (∃ y, escapeChar c = '\\' :: y ∧ parseEsc (y ++ x) = some (c, x)) ∨
    (escapeChar c = [c] ∧ c ≠ '"' ∧ c ≠ '\\' ∧ ¬(c.toNat < 32)) := by
  by_cases hq : c = '"'
  · subst hq
    exact Or.inl ⟨['"'], by decide, rfl⟩
  by_cases hb : c = '\\'
  · subst hb
    exact Or.inl ⟨['\\'], by decide, rfl⟩
  by_cases hn : c = '\n'
  · subst hn
    exact Or.inl ⟨['n'], by decide, rfl⟩
  by_cases hr : c = '\r'
  · subst hr
    exact Or.inl ⟨['r'], by decide, rfl⟩
  by_cases ht : c = '\t'
  · subst ht
    exact Or.inl ⟨['t'], by decide, rfl⟩
  by_cases h8 : c = Char.ofNat 8
  · subst h8
    exact Or.inl ⟨['b'], by decide, rfl⟩
  by_cases h12 : c = Char.ofNat 12
  · subst h12
    exact Or.inl ⟨['f'], by decide, rfl⟩
  by_cases hctl : c.toNat < 32
  · have hesc : escapeChar c = ['\\', 'u', '0', '0', hexDigitChar (c.toNat / 16),
        hexDigitChar (c.toNat % 16)] := by
      unfold escapeChar
      rw [if_neg hq, if_neg hb, if_neg hn, if_neg hr, if_neg ht, if_neg h8,
        if_neg h12, if_pos hctl]
    refine Or.inl ⟨['u', '0', '0', hexDigitChar (c.toNat / 16),
      hexDigitChar (c.toNat % 16)], hesc, ?_⟩
    have hd : hexVal (hexDigitChar (c.toNat / 16)) = some (c.toNat / 16) :=
      hexVal_hexDigitChar _ (by omega)
    have hm : hexVal (hexDigitChar (c.toNat % 16)) = some (c.toNat % 16) :=
      hexVal_hexDigitChar _ (Nat.mod_lt _ (by omega))
    have h0 : hexVal '0' = some 0 := by decide
    have hstep : parseEsc ('u' :: '0' :: '0' :: hexDigitChar (c.toNat / 16) ::
        hexDigitChar (c.toNat % 16) :: x) =
        (match hexVal '0', hexVal '0', hexVal (hexDigitChar (c.toNat / 16)),
            hexVal (hexDigitChar (c.toNat % 16)) with
          | some x1, some y1, some z1, some w1 =>
            some (Char.ofNat (((x1 * 16 + y1) * 16 + z1) * 16 + w1), x)
          | _, _, _, _ => none) := rfl
    show parseEsc ('u' :: '0' :: '0' :: hexDigitChar (c.toNat / 16) ::
      hexDigitChar (c.toNat % 16) :: x) = some (c, x)
    rw [hstep]
    simp only [h0, hd, hm]
    have hcode : (((0 * 16 + 0) * 16 + c.toNat / 16) * 16 + c.toNat % 16) = c.toNat := by
      omega
    rw [hcode, Char.ofNat_toNat]
  · have hesc : escapeChar c = [c] := by
      unfold escapeChar
      rw [if_neg hq, if_neg hb, if_neg hn, if_neg hr, if_neg ht, if_neg h8,
        if_neg h12, if_neg hctl]
    exact Or.inr ⟨hesc, hq, hb, hctl⟩

/-- One escaped character costs at most two characters of fuel; budget the
whole body by its length. -/
theorem parseStrBody_escBody :
    ∀ (s : List Char) (rest : List Char) (fuel : ℕ), s.length + 1 ≤ fuel →
    parseStrBody fuel (escBody s ++ ('"' :: rest)) = some (s, rest) := by
  intro s
  induction s with
  | nil =>
    intro rest fuel hf
    rcases fuel with _ | f
    · omega
    · rfl
  | cons c t ih =>
    intro rest fuel hf
    rcases fuel with _ | f
    · omega
    · show parseStrBody (f + 1) ((escapeChar c ++ escBody t) ++ ('"' :: rest)) = _
      rw [List.append_assoc]
      rcases escapeChar_esc c (escBody t ++ ('"' :: rest)) with ⟨y, hy, hesc⟩ | ⟨hy, hq, hb, hctl⟩
      · rw [hy]
        rw [List.cons_append, parseStrBody_succ]
        rw [if_neg (by decide), if_pos rfl, hesc]
        have hih := ih rest f (by simpa using hf)
        simp [hih]
      · rw [hy]
        rw [List.singleton_append, parseStrBody_succ]
        rw [if_neg hq, if_neg hb, if_neg hctl]
        have hih := ih rest f (by simpa using hf)
        simp [hih]

/-! ### Head-character and length facts about the serializer -/

theorem skipWsL_cons_not (c : Char) (r : List Char) (h : isJsonWs c = false) :
    skipWsL (c :: r) = c :: r := by
  simp [skipWsL, List.dropWhile_cons, h]

theorem skipWsL_cons_ws (c : Char) (r : List Char) (h : isJsonWs c = true) :
    skipWsL (c :: r) = skipWsL r := by
  simp [skipWsL, List.dropWhile_cons, h]

theorem isDigitCh_facts (c : Char) (h : isDigitCh c = true) :
    isJsonWs c = false ∧ c ≠ ']' ∧ c ≠ '}' ∧ c ≠ ',' ∧
    c ≠ 'n' ∧ c ≠ 't' ∧ c ≠ 'f' ∧ c ≠ '"' ∧ c ≠ '[' ∧ c ≠ '{' := by
  refine ⟨?_, ?_, ?_, ?_, ?_, ?_, ?_, ?_, ?_, ?_⟩
  · cases hw : isJsonWs c
    · rfl
    · simp only [isJsonWs, Bool.or_eq_true, decide_eq_true_eq] at hw
      rcases hw with ((h1 | h1) | h1) | h1 <;> subst h1 <;> exact absurd h (by decide)
  all_goals intro h1
  all_goals subst h1
  all_goals exact absurd h (by decide)

theorem escBody_length (s : List Char) : s.length ≤ (escBody s).length := by
  induction s with
  | nil => simp [escBody]
  | cons c t ih =>
    show t.length + 1 ≤ (escapeChar c ++ escBody t).length
    rcases escapeChar_esc c [] with ⟨y, hy, _⟩ | ⟨hy, _⟩ <;>
      simp [hy, List.length_append] <;> omega

theorem dumpV_length_pos : ∀ v : Json, 1 ≤ (dumpV v).length := by
  intro v
  cases v with
  | null => decide
  | boolJ b => cases b <;> decide
  | num n =>
    show 1 ≤ (intRepr n).length
    unfold intRepr
    split
    · simp
    · rcases hnr : natRepr n.natAbs with _ | ⟨c, t⟩
      · exact absurd hnr (natRepr_ne_nil _)
      · simp
  | str s => simp [dumpV, dumpStringL]
  | arr xs => simp [dumpV]
  | obj ms => simp [dumpV]

/-- The first character of any serialized value: not whitespace, not a
structural delimiter, and the only letter starters are those of the matching
keyword. -/
theorem dumpV_head_spec (v : Json) :
    ∃ c t', dumpV v = c :: t' ∧ isJsonWs c = false ∧ c ≠ ']' ∧ c ≠ '}' ∧ c ≠ ',' := by
  cases v with
  | null => exact ⟨'n', _, rfl, by decide, by decide, by decide, by decide⟩
  | boolJ b =>
    cases b
    · exact ⟨'f', _, rfl, by decide, by decide, by decide, by decide⟩
    · exact ⟨'t', _, rfl, by decide, by decide, by decide, by decide⟩
  | num n =>
    show ∃ c t', intRepr n = c :: t' ∧ _
    unfold intRepr
    split
    · exact ⟨'-', _, rfl, by decide, by decide, by decide, by decide⟩
    · rcases hnr : natRepr n.natAbs with _ | ⟨c, t⟩
      · exact absurd hnr (natRepr_ne_nil _)
      · have hd := natRepr_digits n.natAbs c (by rw [hnr]; simp)
        have hf := isDigitCh_facts c hd
        exact ⟨c, t, rfl, hf.1, hf.2.1, hf.2.2.1, hf.2.2.2.1⟩
  | str s => exact ⟨'"', _, rfl, by decide, by decide, by decide, by decide⟩
  | arr xs => exact ⟨'[', _, rfl, by decide, by decide, by decide, by decide⟩
  | obj ms => exact ⟨'{', _, rfl, by decide, by decide, by decide, by decide⟩

theorem skipWsL_dumpV (v : Json) (x : List Char) :
    skipWsL (dumpV v ++ x) = dumpV v ++ x := by
  obtain ⟨c, t', heq, hws, -⟩ := dumpV_head_spec v
  rw [heq, List.cons_append, skipWsL_cons_not _ _ hws]

/-! ### Parser/serializer round-trip -/

theorem ne_startsWithCh (c : Char) (x : List Char) (d : Char) (h : c ≠ d) :
    startsWithCh (c :: x) d = false := by
  simp [startsWithCh, h]

theorem startsWithCh_self (c : Char) (x : List Char) : startsWithCh (c :: x) c = true := by
  simp [startsWithCh]

theorem parseVal_succ (fuel : ℕ) (c : Char) (r : List Char) :
    parseVal (fuel + 1) (c :: r) =
      (if c = 'n' then (expectLit ['u', 'l', 'l'] r).map (fun r2 => (Json.null, r2))
      else if c = 't' then (expectLit ['r', 'u', 'e'] r).map (fun r2 => (Json.boolJ true, r2))
      else if c = 'f' then (expectLit ['a', 'l', 's', 'e'] r).map (fun r2 => (Json.boolJ false, r2))
      else if c = '"' then (parseStrBody fuel r).map (fun p => (Json.str p.1, p.2))
      else if c = '[' then
        (if startsWithCh (skipWsL r) ']' = true then some (Json.arr JsonList.nil, (skipWsL r).tail)
         else (parseElems fuel (skipWsL r)).map (fun p => (Json.arr p.1, p.2)))
      else if c = '{' then
        (if startsWithCh (skipWsL r) '}' = true then some (Json.obj JsonMembers.nil, (skipWsL r).tail)
         else (parseMembers fuel (skipWsL r)).map (fun p => (Json.obj p.1, p.2)))
      else parseNumTok (c :: r)) := rfl

theorem parseElems_succ (fuel : ℕ) (s : List Char) :
    parseElems (fuel + 1) s =
      (parseVal fuel s).bind (fun vr =>
        if startsWithCh (skipWsL vr.2) ',' = true then
          (parseElems fuel (skipWsL (skipWsL vr.2).tail)).map
            (fun p => (JsonList.cons vr.1 p.1, p.2))
        else if startsWithCh (skipWsL vr.2) ']' = true then
          some (JsonList.cons vr.1 JsonList.nil, (skipWsL vr.2).tail)
        else none) := rfl

theorem parseMembers_succ (fuel : ℕ) (s : List Char) :
    parseMembers (fuel + 1) s =
      (if startsWithCh s '"' = true then
        (parseStrBody fuel s.tail).bind (fun kr =>
          if startsWithCh (skipWsL kr.2) ':' = true then
            (parseVal fuel (skipWsL (skipWsL kr.2).tail)).bind (fun vr =>
              if startsWithCh (skipWsL vr.2) ',' = true then
                (parseMembers fuel (skipWsL (skipWsL vr.2).tail)).map
                  (fun p => (JsonMembers.cons kr.1 vr.1 p.1, p.2))
              else if startsWithCh (skipWsL vr.2) '}' = true then
                some (JsonMembers.cons kr.1 vr.1 JsonMembers.nil, (skipWsL vr.2).tail)
              else none)
          else none)
      else none) := rfl

theorem dumpArr_cons_decomp (x : Json) (t : JsonList) :
    ∃ y, dumpArr (JsonList.cons x t) = dumpV x ++ y := by
  cases t with
  | nil => exact ⟨[], by simp [dumpArr]⟩
  | cons z t2 =>
    refine ⟨[',', ' '] ++ dumpArr (JsonList.cons z t2), ?_⟩
    show dumpV x ++ [',', ' '] ++ dumpArr (JsonList.cons z t2) = _
    simp

theorem parse_dump_aux : ∀ fuel : ℕ,
    (∀ v rest, rest.takeWhile isDigitCh = [] → (dumpV v).length + 1 ≤ fuel →
      parseVal fuel (dumpV v ++ rest) = some (v, rest)) ∧
    (∀ xs rest, xs ≠ JsonList.nil → (dumpArr xs).length + 2 ≤ fuel →
      parseElems fuel (dumpArr xs ++ (']' :: rest)) = some (xs, rest)) ∧
    (∀ ms rest, ms ≠ JsonMembers.nil → (dumpObj ms).length + 2 ≤ fuel →
      parseMembers fuel (dumpObj ms ++ ('}' :: rest)) = some (ms, rest)) := by
  intro fuel
  induction fuel using Nat.strong_induction_on with
  | _ fuel IH =>
  rcases fuel with _ | f
  · exact ⟨fun v rest _ h => by omega, fun xs rest _ h => by omega,
      fun ms rest _ h => by omega⟩
  obtain ⟨ihV, ihE, ihM⟩ := IH f (by omega)
  refine ⟨?_, ?_, ?_⟩
  · -- parseVal on a dumped value
    intro v rest hrest hfuel
    cases v with
    | null =>
      show parseVal (f + 1) (['n', 'u', 'l', 'l'] ++ rest) = _
      rw [show (['n', 'u', 'l', 'l'] : List Char) ++ rest =
        'n' :: ('u' :: 'l' :: 'l' :: rest) from rfl]
      rw [parseVal_succ, if_pos rfl]
      simp [expectLit, List.isPrefixOf]
    | boolJ b =>
      cases b
      · show parseVal (f + 1) (['f', 'a', 'l', 's', 'e'] ++ rest) = _
        rw [show (['f', 'a', 'l', 's', 'e'] : List Char) ++ rest =
          'f' :: ('a' :: 'l' :: 's' :: 'e' :: rest) from rfl]
        rw [parseVal_succ, if_neg (by decide), if_neg (by decide), if_pos rfl]
        simp [expectLit, List.isPrefixOf]
      · show parseVal (f + 1) (['t', 'r', 'u', 'e'] ++ rest) = _
        rw [show (['t', 'r', 'u', 'e'] : List Char) ++ rest =
          't' :: ('r' :: 'u' :: 'e' :: rest) from rfl]
        rw [parseVal_succ, if_neg (by decide), if_pos rfl]
        simp [expectLit, List.isPrefixOf]
    | num n =>
      show parseVal (f + 1) (intRepr n ++ rest) = _
      have hnum := parseNumTok_repr n rest hrest
      rcases hir : intRepr n with _ | ⟨c, t⟩
      · exfalso
        revert hir
        unfold intRepr
        split
        · simp
        · exact fun h => natRepr_ne_nil _ h
      · have hc : c = '-' ∨ isDigitCh c = true := by
          revert hir
          unfold intRepr
          split
          · intro hir
            exact Or.inl (List.cons.inj hir).1.symm
          · intro hir
            exact Or.inr (natRepr_digits _ c (by rw [hir]; simp))
        rw [List.cons_append, parseVal_succ]
        have hnoletter : c ≠ 'n' ∧ c ≠ 't' ∧ c ≠ 'f' ∧ c ≠ '"' ∧ c ≠ '[' ∧ c ≠ '{' := by
          rcases hc with hc | hc
          · subst hc
            exact ⟨by decide, by decide, by decide, by decide, by decide, by decide⟩
          · have := isDigitCh_facts c hc
            exact ⟨this.2.2.2.2.1, this.2.2.2.2.2.1, this.2.2.2.2.2.2.1,
              this.2.2.2.2.2.2.2.1, this.2.2.2.2.2.2.2.2.1, this.2.2.2.2.2.2.2.2.2⟩
        rw [if_neg hnoletter.1, if_neg hnoletter.2.1, if_neg hnoletter.2.2.1,
          if_neg hnoletter.2.2.2.1, if_neg hnoletter.2.2.2.2.1, if_neg hnoletter.2.2.2.2.2]
        rw [← List.cons_append, ← hir]
        exact hnum
    | str s =>
      show parseVal (f + 1) (('"' :: (escBody s ++ ['"'])) ++ rest) = _
      rw [List.cons_append, parseVal_succ]
      rw [if_neg (by decide), if_neg (by decide), if_neg (by decide), if_pos rfl]
      rw [List.append_assoc]
      rw [show (['"'] : List Char) ++ rest = '"' :: rest from rfl]
      have hsl : s.length + 1 ≤ f := by
        have h1 := escBody_length s
        have h2 : (dumpV (Json.str s)).length = (escBody s).length + 2 := by
          simp [dumpV, dumpStringL]
        omega
      rw [parseStrBody_escBody s rest f hsl]
      rfl
    | arr xs =>
      show parseVal (f + 1) (('[' :: (dumpArr xs ++ [']'])) ++ rest) = _
      rw [List.cons_append, parseVal_succ]
      rw [if_neg (by decide), if_neg (by decide), if_neg (by decide),
        if_neg (by decide), if_pos rfl]
      rw [List.append_assoc]
      rw [show ([']'] : List Char) ++ rest = ']' :: rest from rfl]
      cases xs with
      | nil =>
        rw [show dumpArr JsonList.nil ++ (']' :: rest) = ']' :: rest from rfl]
        rw [skipWsL_cons_not ']' rest (by decide)]
        rw [if_pos (startsWithCh_self ']' rest)]
        rfl
      | cons x t =>
        obtain ⟨y, hy⟩ := dumpArr_cons_decomp x t
        obtain ⟨c, t', heq, hws, hne1, hne2, hne3⟩ := dumpV_head_spec x
        have hskip : skipWsL (dumpArr (JsonList.cons x t) ++ (']' :: rest)) =
            dumpArr (JsonList.cons x t) ++ (']' :: rest) := by
          rw [hy, List.append_assoc]
          exact skipWsL_dumpV x _
        rw [hskip]
        have hsw : startsWithCh (dumpArr (JsonList.cons x t) ++ (']' :: rest)) ']' = false := by
          rw [hy, heq, List.append_assoc, List.cons_append]
          exact ne_startsWithCh _ _ _ hne1
        rw [hsw]
        simp only [Bool.false_eq_true, if_false]
        have hfe : (dumpArr (JsonList.cons x t)).length + 2 ≤ f := by
          have : (dumpV (Json.arr (JsonList.cons x t))).length =
              (dumpArr (JsonList.cons x t)).length + 2 := by
            simp [dumpV]
          omega
        rw [ihE (JsonList.cons x t) rest (by simp) hfe]
        rfl
    | obj ms =>
      show parseVal (f + 1) (('{' :: (dumpObj ms ++ ['}'])) ++ rest) = _
      rw [List.cons_append, parseVal_succ]
      rw [if_neg (by decide), if_neg (by decide), if_neg (by decide),
        if_neg (by decide), if_neg (by decide), if_pos rfl]
      rw [List.append_assoc]
      rw [show (['}'] : List Char) ++ rest = '}' :: rest from rfl]
      cases ms with
      | nil =>
        rw [show dumpObj JsonMembers.nil ++ ('}' :: rest) = '}' :: rest from rfl]
        rw [skipWsL_cons_not '}' rest (by decide)]
        rw [if_pos (startsWithCh_self '}' rest)]
        rfl
      | cons k v t =>
        have hobj : ∃ y, dumpObj (JsonMembers.cons k v t) =
            '"' :: (escBody k ++ ['"']) ++ y := by
          cases t with
          | nil =>
            refine ⟨[':', ' '] ++ dumpV v, ?_⟩
            show dumpStringL k ++ [':', ' '] ++ dumpV v = _
            simp [dumpStringL]
          | cons k2 v2 t2 =>
            refine ⟨[':', ' '] ++ dumpV v ++ [',', ' '] ++
              dumpObj (JsonMembers.cons k2 v2 t2), ?_⟩
            show dumpStringL k ++ [':', ' '] ++ dumpV v ++ [',', ' '] ++
              dumpObj (JsonMembers.cons k2 v2 t2) = _
            simp [dumpStringL]
        obtain ⟨y, hy⟩ := hobj
        have hskip : skipWsL (dumpObj (JsonMembers.cons k v t) ++ ('}' :: rest)) =
            dumpObj (JsonMembers.cons k v t) ++ ('}' :: rest) := by
          rw [hy]
          rw [show ('"' :: (escBody k ++ ['"']) ++ y) ++ ('}' :: rest) =
            '"' :: ((escBody k ++ ['"']) ++ y ++ ('}' :: rest)) from by simp]
          exact skipWsL_cons_not '"' _ (by decide)
        rw [hskip]
        have hsw : startsWithCh (dumpObj (JsonMembers.cons k v t) ++ ('}' :: rest)) '}' = false := by
          rw [hy]
          rw [show ('"' :: (escBody k ++ ['"']) ++ y) ++ ('}' :: rest) =
            '"' :: ((escBody k ++ ['"']) ++ y ++ ('}' :: rest)) from by simp]
          exact ne_startsWithCh _ _ _ (by decide)
        rw [hsw]
        simp only [Bool.false_eq_true, if_false]
        have hfm : (dumpObj (JsonMembers.cons k v t)).length + 2 ≤ f := by
          have : (dumpV (Json.obj (JsonMembers.cons k v t))).length =
              (dumpObj (JsonMembers.cons k v t)).length + 2 := by
            simp [dumpV]
          omega
        rw [ihM (JsonMembers.cons k v t) rest (by simp) hfm]
        rfl
  · -- parseElems on a dumped non-empty list
    intro xs rest hne hfuel
    cases xs with
    | nil => exact absurd rfl hne
    | cons x t =>
      rw [parseElems_succ]
      cases t with
      | nil =>
        rw [show dumpArr (JsonList.cons x JsonList.nil) = dumpV x from rfl]
        have hrestOK : (']' :: rest).takeWhile isDigitCh = [] :=
          takeWhile_eq_nil_of_head _ _ _ (by decide)
        have hfv : (dumpV x).length + 1 ≤ f := by
          have := hfuel
          rw [show dumpArr (JsonList.cons x JsonList.nil) = dumpV x from rfl] at this
          omega
        rw [ihV x (']' :: rest) hrestOK hfv]
        simp only [Option.some_bind]
        rw [skipWsL_cons_not ']' rest (by decide)]
        rw [ne_startsWithCh ']' rest ',' (by decide)]
        simp only [Bool.false_eq_true, if_false]
        rw [if_pos (startsWithCh_self ']' rest)]
        rfl
      | cons z t2 =>
        rw [show dumpArr (JsonList.cons x (JsonList.cons z t2)) =
          dumpV x ++ [',', ' '] ++ dumpArr (JsonList.cons z t2) from rfl]
        have harrlen : 1 ≤ (dumpArr (JsonList.cons z t2)).length := by
          obtain ⟨y2, hy2⟩ := dumpArr_cons_decomp z t2
          have := dumpV_length_pos z
          rw [hy2]
          simp
          omega
        have hlen : (dumpArr (JsonList.cons x (JsonList.cons z t2))).length =
            (dumpV x).length + 2 + (dumpArr (JsonList.cons z t2)).length := by
          rw [show dumpArr (JsonList.cons x (JsonList.cons z t2)) =
            dumpV x ++ [',', ' '] ++ dumpArr (JsonList.cons z t2) from rfl]
          simp
          omega
        rw [show (dumpV x ++ [',', ' '] ++ dumpArr (JsonList.cons z t2)) ++ (']' :: rest) =
          dumpV x ++ (',' :: ' ' :: (dumpArr (JsonList.cons z t2) ++ (']' :: rest))) from by simp]
        have hrestOK : (',' :: ' ' :: (dumpArr (JsonList.cons z t2) ++ (']' :: rest))).takeWhile
            isDigitCh = [] := takeWhile_eq_nil_of_head _ _ _ (by decide)
        have hfv : (dumpV x).length + 1 ≤ f := by
          rw [hlen] at hfuel
          omega
        rw [ihV x _ hrestOK hfv]
        simp only [Option.some_bind]
        rw [skipWsL_cons_not ',' _ (by decide)]
        rw [startsWithCh_self ',' _]
        simp only [if_true, List.tail_cons]
        obtain ⟨z2, hz2⟩ := dumpArr_cons_decomp z t2
        have hskip2 : skipWsL (' ' :: (dumpArr (JsonList.cons z t2) ++ (']' :: rest))) =
            dumpArr (JsonList.cons z t2) ++ (']' :: rest) := by
          rw [skipWsL_cons_ws ' ' _ (by decide)]
          rw [hz2, List.append_assoc]
          exact skipWsL_dumpV z _
        rw [hskip2]
        have hfe2 : (dumpArr (JsonList.cons z t2)).length + 2 ≤ f := by
          rw [hlen] at hfuel
          have := dumpV_length_pos x
          omega
        rw [ihE (JsonList.cons z t2) rest (by simp) hfe2]
        rfl
  · -- parseMembers on a dumped non-empty member list
    intro ms rest hne hfuel
    cases ms with
    | nil => exact absurd rfl hne
    | cons k v t =>
      rw [parseMembers_succ]
      have hmdec : ∃ y, dumpObj (JsonMembers.cons k v t) =
          '"' :: (escBody k ++ ('"' :: (':' :: ' ' :: (dumpV v ++ y)))) ∧
          ((t = JsonMembers.nil ∧ y = []) ∨
           (∃ k2 v2 t2, t = JsonMembers.cons k2 v2 t2 ∧
             y = ',' :: ' ' :: dumpObj (JsonMembers.cons k2 v2 t2))) := by
        cases t with
        | nil =>
          refine ⟨[], ?_, Or.inl ⟨rfl, rfl⟩⟩
          show dumpStringL k ++ [':', ' '] ++ dumpV v = _
          simp [dumpStringL]
        | cons k2 v2 t2 =>
          refine ⟨',' :: ' ' :: dumpObj (JsonMembers.cons k2 v2 t2), ?_,
            Or.inr ⟨k2, v2, t2, rfl, rfl⟩⟩
          show dumpStringL k ++ [':', ' '] ++ dumpV v ++ [',', ' '] ++
            dumpObj (JsonMembers.cons k2 v2 t2) = _
          simp [dumpStringL]
      obtain ⟨y, hy, hycases⟩ := hmdec
      have hlen : (dumpObj (JsonMembers.cons k v t)).length =
          (escBody k).length + (dumpV v).length + y.length + 4 := by
        rw [hy]
        simp
        omega
      rw [hy]
      rw [show ('"' :: (escBody k ++ ('"' :: (':' :: ' ' :: (dumpV v ++ y))))) ++ ('}' :: rest) =
        '"' :: (escBody k ++ ('"' :: (':' :: ' ' :: (dumpV v ++ (y ++ ('}' :: rest)))))) from by
          simp]
      rw [startsWithCh_self '"' _]
      simp only [if_true, List.tail_cons]
      have hkf : k.length + 1 ≤ f := by
        have h1 := escBody_length k
        have h2 := dumpV_length_pos v
        rw [hlen] at hfuel
        omega
      rw [parseStrBody_escBody k _ f hkf]
      simp only [Option.some_bind]
      rw [skipWsL_cons_not ':' _ (by decide)]
      rw [startsWithCh_self ':' _]
      simp only [if_true, List.tail_cons]
      have hskipv : skipWsL (' ' :: (dumpV v ++ (y ++ ('}' :: rest)))) =
          dumpV v ++ (y ++ ('}' :: rest)) := by
        rw [skipWsL_cons_ws ' ' _ (by decide)]
        exact skipWsL_dumpV v _
      rw [hskipv]
      have hrestOKv : (y ++ ('}' :: rest)).takeWhile isDigitCh = [] := by
        rcases hycases with ⟨-, hy0⟩ | ⟨k2, v2, t2, -, hy0⟩
        · subst hy0
          exact takeWhile_eq_nil_of_head _ _ _ (by decide)
        · subst hy0
          exact takeWhile_eq_nil_of_head _ _ _ (by decide)
      have hvf : (dumpV v).length + 1 ≤ f := by
        have h1 := escBody_length k
        rw [hlen] at hfuel
        omega
      rw [ihV v _ hrestOKv hvf]
      simp only [Option.some_bind]
      rcases hycases with ⟨ht0, hy0⟩ | ⟨k2, v2, t2, ht0, hy0⟩
      · subst ht0
        subst hy0
        rw [List.nil_append]
        rw [skipWsL_cons_not '}' rest (by decide)]
        rw [ne_startsWithCh '}' rest ',' (by decide)]
        simp only [Bool.false_eq_true, if_false]
        rw [if_pos (startsWithCh_self '}' rest)]
        rfl
      · subst ht0
        subst hy0
        rw [show (',' :: ' ' :: dumpObj (JsonMembers.cons k2 v2 t2)) ++ ('}' :: rest) =
          ',' :: ' ' :: (dumpObj (JsonMembers.cons k2 v2 t2) ++ ('}' :: rest)) from by simp]
        rw [skipWsL_cons_not ',' _ (by decide)]
        rw [startsWithCh_self ',' _]
        simp only [if_true, List.tail_cons]
        have hmdec2 : ∃ y2, dumpObj (JsonMembers.cons k2 v2 t2) =
            '"' :: y2 := by
          cases t2 with
          | nil => exact ⟨escBody k2 ++ ('"' :: (':' :: ' ' :: (dumpV v2 ++ []))), by
              show dumpStringL k2 ++ [':', ' '] ++ dumpV v2 = _
              simp [dumpStringL]⟩
          | cons k3 v3 t3 => exact ⟨escBody k2 ++ ('"' :: (':' :: ' ' ::
              (dumpV v2 ++ (',' :: ' ' :: dumpObj (JsonMembers.cons k3 v3 t3))))), by
              show dumpStringL k2 ++ [':', ' '] ++ dumpV v2 ++ [',', ' '] ++
                dumpObj (JsonMembers.cons k3 v3 t3) = _
              simp [dumpStringL]⟩
        obtain ⟨y2, hy2⟩ := hmdec2
        have hskipm : skipWsL (' ' :: (dumpObj (JsonMembers.cons k2 v2 t2) ++ ('}' :: rest))) =
            dumpObj (JsonMembers.cons k2 v2 t2) ++ ('}' :: rest) := by
          rw [skipWsL_cons_ws ' ' _ (by decide)]
          rw [hy2, List.cons_append]
          exact skipWsL_cons_not '"' _ (by decide)
        rw [hskipm]
        have hmf : (dumpObj (JsonMembers.cons k2 v2 t2)).length + 2 ≤ f := by
          have h1 := escBody_length k
          have h2 := dumpV_length_pos v
          rw [hlen] at hfuel
          simp at hfuel
          omega
        rw [ihM (JsonMembers.cons k2 v2 t2) rest (by simp) hmf]
        rfl

/-- Full-document round-trip: `json.loads (json.dumps v) = v`. -/
theorem parseJson_dumpV (v : Json) : parseJson (dumpV v) = some v := by
  unfold parseJson
  have hskip : skipWsL (dumpV v) = dumpV v := by
    have := skipWsL_dumpV v []
    simpa using this
  rw [hskip]
  have h1 : parseVal ((dumpV v).length + 1) (dumpV v ++ []) = some (v, []) :=
    (parse_dump_aux ((dumpV v).length + 1)).1 v [] rfl (by omega)
  rw [List.append_nil] at h1
  rw [h1]
  rfl

/-! ### Suffix facts about the parser (used to justify the brace guard) -/

theorem startsWithCh_eq (l : List Char) (d : Char) (h : startsWithCh l d = true) :
    l = d :: l.tail := by
  cases l with
  | nil => simp [startsWithCh] at h
  | cons c t =>
    have : c = d := by simpa [startsWithCh] using h
    rw [this]
    rfl

theorem parseEsc_cons (e : Char) (r2 : List Char) :
    parseEsc (e :: r2) =
      (if e = '"' then some ('"', r2)
      else if e = '\\' then some ('\\', r2)
      else if e = '/' then some ('/', r2)
      else if e = 'b' then some (Char.ofNat 8, r2)
      else if e = 'f' then some (Char.ofNat 12, r2)
      else if e = 'n' then some ('\n', r2)
      else if e = 'r' then some ('\r', r2)
      else if e = 't' then some ('\t', r2)
      else if e = 'u' then
        match r2 with
        | a :: b :: c :: d :: r3 =>
          (match hexVal a, hexVal b, hexVal c, hexVal d with
          | some x, some y, some z, some w =>
            some (Char.ofNat (((x * 16 + y) * 16 + z) * 16 + w), r3)
          | _, _, _, _ => none)
        | _ => none
      else none) := rfl

theorem parseEsc_suffix (r : List Char) (ch : Char) (r2 : List Char)
    (h : parseEsc r = some (ch, r2)) : r2 <:+ r := by
  cases r with
  | nil => simp [parseEsc] at h
  | cons e r3 =>
    rw [parseEsc_cons] at h
    split_ifs at h with h1 h2 h3 h4 h5 h6 h7 h8 h9
    all_goals first
      | (obtain ⟨-, hh⟩ := Prod.mk.inj (Option.some.inj h)
         exact hh ▸ ⟨[e], rfl⟩)
      | skip
    rcases r3 with _ | ⟨a, _ | ⟨b, _ | ⟨c, _ | ⟨d, r4⟩⟩⟩⟩ <;> try simp at h
    split at h
    · obtain ⟨-, hh⟩ := Prod.mk.inj (Option.some.inj h)
      exact hh ▸ ⟨[e, a, b, c, d], rfl⟩
    · exact absurd h (by simp)

theorem parseStrBody_suffix :
    ∀ fuel s k rest, parseStrBody fuel s = some (k, rest) → rest <:+ s := by
  intro fuel
  induction fuel with
  | zero => intro s k rest h; simp [parseStrBody] at h
  | succ f ih =>
    intro s k rest h
    cases s with
    | nil => simp [parseStrBody] at h
    | cons c r =>
      rw [parseStrBody_succ] at h
      split_ifs at h with h1 h2 h3
      · obtain ⟨-, h4⟩ := Prod.mk.inj (Option.some.inj h)
        exact h4 ▸ ⟨[c], rfl⟩
      · rcases hesc : parseEsc r with _ | ⟨ch, r2⟩
        · rw [hesc] at h
          simp at h
        · rw [hesc] at h
          simp only [] at h
          obtain ⟨p, hp, hpe⟩ := Option.map_eq_some'.mp h
          obtain ⟨-, h4⟩ := Prod.mk.inj hpe
          have hs1 : rest <:+ r2 := h4 ▸ ih r2 p.1 p.2 hp
          exact (hs1.trans (parseEsc_suffix r ch r2 hesc)).trans ⟨[c], rfl⟩
      · obtain ⟨p, hp, hpe⟩ := Option.map_eq_some'.mp h
        obtain ⟨-, h4⟩ := Prod.mk.inj hpe
        have hs1 : rest <:+ r := h4 ▸ ih r p.1 p.2 hp
        exact hs1.trans ⟨[c], rfl⟩

theorem parseNatNum_rest (s : List Char) (p : ℕ × List Char)
    (h : parseNatNum s = some p) : p.2 = s.dropWhile isDigitCh := by
  unfold parseNatNum at h
  split_ifs at h with h1 h2
  exact (congrArg Prod.snd (Option.some.inj h)).symm

theorem parseNumTok_suffix (s : List Char) (v : Json) (rest : List Char)
    (h : parseNumTok s = some (v, rest)) : rest <:+ s := by
  cases s with
  | nil => simp [parseNumTok, parseNatNum] at h
  | cons c r =>
    by_cases hc : c = '-'
    · subst hc
      have hstep : parseNumTok ('-' :: r) =
          (parseNatNum r).map (fun p => (Json.num (-(p.1 : ℤ)), p.2)) := rfl
      rw [hstep] at h
      obtain ⟨p, hp, hpe⟩ := Option.map_eq_some'.mp h
      obtain ⟨-, hr⟩ := Prod.mk.inj hpe
      have hrest := parseNatNum_rest r p hp
      have : rest <:+ r := by
        rw [← hr, hrest]
        exact List.dropWhile_suffix _
      exact this.trans ⟨['-'], rfl⟩
    · rw [parseNumTok_not_dash c r hc] at h
      obtain ⟨p, hp, hpe⟩ := Option.map_eq_some'.mp h
      obtain ⟨-, hr⟩ := Prod.mk.inj hpe
      have hrest := parseNatNum_rest _ p hp
      rw [← hr, hrest]
      exact List.dropWhile_suffix _

theorem expectLit_suffix (lit s r2 : List Char) (h : expectLit lit s = some r2) :
    r2 <:+ s := by
  unfold expectLit at h
  split_ifs at h
  · rw [← Option.some.inj h]
    exact List.drop_suffix _ _


theorem parseNumTok_shape (s : List Char) (v : Json) (rest : List Char)
    (h : parseNumTok s = some (v, rest)) : ∃ n, v = Json.num n := by
  unfold parseNumTok at h
  split at h
  · obtain ⟨p, -, hpe⟩ := Option.map_eq_some'.mp h
    exact ⟨-(p.1 : ℤ), ((Prod.mk.inj hpe).1).symm⟩
  · obtain ⟨p, -, hpe⟩ := Option.map_eq_some'.mp h
    exact ⟨(p.1 : ℤ), ((Prod.mk.inj hpe).1).symm⟩

theorem tail_skipWsL_suffix (a : List Char) : (skipWsL a).tail <:+ a :=
  (List.tail_suffix _).trans (List.dropWhile_suffix _)

theorem parse_suffix_aux : ∀ fuel : ℕ,
    (∀ s v rest, parseVal fuel s = some (v, rest) →
      rest <:+ s ∧ (∀ ms, v = Json.obj ms → (∃ t, s = '{' :: t) ∧ ('}' :: rest) <:+ s)) ∧
    (∀ s xs rest, parseElems fuel s = some (xs, rest) → (']' :: rest) <:+ s) ∧
    (∀ s ms rest, parseMembers fuel s = some (ms, rest) → ('}' :: rest) <:+ s) := by
  intro fuel
  induction fuel using Nat.strong_induction_on with
  | _ fuel IH =>
  rcases fuel with _ | f
  · refine ⟨fun s v rest h => by simp [parseVal] at h,
      fun s xs rest h => by simp [parseElems] at h,
      fun s ms rest h => by simp [parseMembers] at h⟩
  obtain ⟨ihV, ihE, ihM⟩ := IH f (by omega)
  refine ⟨?_, ?_, ?_⟩
  · -- parseVal
    intro s v rest h
    cases s with
    | nil => simp [parseVal] at h
    | cons c r =>
      rw [parseVal_succ] at h
      split_ifs at h with h1 h2 h3 h4 h5 h6 h7 h8
      · obtain ⟨r2, hr2, hpe⟩ := Option.map_eq_some'.mp h
        obtain ⟨hv, hr⟩ := Prod.mk.inj hpe
        refine ⟨hr ▸ (expectLit_suffix _ _ _ hr2).trans ⟨[c], rfl⟩, ?_⟩
        intro ms hms
        rw [← hv] at hms
        exact absurd hms (by simp)
      · obtain ⟨r2, hr2, hpe⟩ := Option.map_eq_some'.mp h
        obtain ⟨hv, hr⟩ := Prod.mk.inj hpe
        refine ⟨hr ▸ (expectLit_suffix _ _ _ hr2).trans ⟨[c], rfl⟩, ?_⟩
        intro ms hms
        rw [← hv] at hms
        exact absurd hms (by simp)
      · obtain ⟨r2, hr2, hpe⟩ := Option.map_eq_some'.mp h
        obtain ⟨hv, hr⟩ := Prod.mk.inj hpe
        refine ⟨hr ▸ (expectLit_suffix _ _ _ hr2).trans ⟨[c], rfl⟩, ?_⟩
        intro ms hms
        rw [← hv] at hms
        exact absurd hms (by simp)
      · obtain ⟨p, hp, hpe⟩ := Option.map_eq_some'.mp h
        obtain ⟨hv, hr⟩ := Prod.mk.inj hpe
        refine ⟨hr ▸ (parseStrBody_suffix f r p.1 p.2 hp).trans ⟨[c], rfl⟩, ?_⟩
        intro ms hms
        rw [← hv] at hms
        exact absurd hms (by simp)
      · -- c = '[', empty array
        obtain ⟨hv, hr⟩ := Prod.mk.inj (Option.some.inj h)
        refine ⟨hr ▸ (tail_skipWsL_suffix r).trans ⟨[c], rfl⟩, ?_⟩
        intro ms hms
        rw [← hv] at hms
        exact absurd hms (by simp)
      · -- c = '[', non-empty array
        obtain ⟨p, hp, hpe⟩ := Option.map_eq_some'.mp h
        obtain ⟨hv, hr⟩ := Prod.mk.inj hpe
        have he := ihE (skipWsL r) p.1 p.2 hp
        have hrs : rest <:+ skipWsL r := by
          rw [← hr]
          exact (List.suffix_cons ']' p.2).trans he
        refine ⟨(hrs.trans (List.dropWhile_suffix _)).trans ⟨[c], rfl⟩, ?_⟩
        intro ms hms
        rw [← hv] at hms
        exact absurd hms (by simp)
      · -- c = '{', empty object
        obtain ⟨hv, hr⟩ := Prod.mk.inj (Option.some.inj h)
        have hsk : skipWsL r = '}' :: (skipWsL r).tail := startsWithCh_eq _ _ h8
        refine ⟨hr ▸ (tail_skipWsL_suffix r).trans ⟨[c], rfl⟩, ?_⟩
        intro ms hms
        refine ⟨⟨r, by rw [h7]⟩, ?_⟩
        have hss : ('}' :: rest) <:+ skipWsL r := by
          rw [← hr, ← hsk]
        exact (hss.trans (List.dropWhile_suffix _)).trans ⟨[c], rfl⟩
      · -- c = '{', non-empty object
        obtain ⟨p, hp, hpe⟩ := Option.map_eq_some'.mp h
        obtain ⟨hv, hr⟩ := Prod.mk.inj hpe
        have hm := ihM (skipWsL r) p.1 p.2 hp
        have hss : ('}' :: rest) <:+ skipWsL r := by
          rw [← hr]
          exact hm
        refine ⟨((List.suffix_cons '}' rest).trans hss |>.trans
          (List.dropWhile_suffix _)).trans ⟨[c], rfl⟩, ?_⟩
        intro ms hms
        exact ⟨⟨r, by rw [h7]⟩, (hss.trans (List.dropWhile_suffix _)).trans ⟨[c], rfl⟩⟩
      · -- number token
        obtain ⟨n, hn⟩ := parseNumTok_shape _ _ _ h
        refine ⟨parseNumTok_suffix _ _ _ h, ?_⟩
        intro ms hms
        rw [hn] at hms
        exact absurd hms (by simp)
  · -- parseElems
    intro s xs rest h
    rw [parseElems_succ] at h
    obtain ⟨vr, hvr, hbody⟩ := Option.bind_eq_some.mp h
    replace hbody : (if startsWithCh (skipWsL vr.2) ',' = true then
        (parseElems f (skipWsL (skipWsL vr.2).tail)).map
          (fun p => (JsonList.cons vr.1 p.1, p.2))
      else if startsWithCh (skipWsL vr.2) ']' = true then
        some (JsonList.cons vr.1 JsonList.nil, (skipWsL vr.2).tail)
      else none) = some (xs, rest) := hbody
    have hv2 : vr.2 <:+ s := (ihV s vr.1 vr.2 (by rw [hvr])).1
    split_ifs at hbody with hc1 hc2
    · obtain ⟨p, hp, hpe⟩ := Option.map_eq_some'.mp hbody
      obtain ⟨-, hr⟩ := Prod.mk.inj hpe
      have he := ihE _ p.1 p.2 hp
      refine (hr ▸ he).trans ?_
      exact ((List.dropWhile_suffix _).trans (List.tail_suffix _)).trans
        ((List.dropWhile_suffix _).trans hv2)
    · obtain ⟨-, hr⟩ := Prod.mk.inj (Option.some.inj hbody)
      have hsk : skipWsL vr.2 = ']' :: (skipWsL vr.2).tail := startsWithCh_eq _ _ hc2
      have : (']' :: rest) <:+ skipWsL vr.2 := by
        rw [← hr, ← hsk]
      exact (this.trans (List.dropWhile_suffix _)).trans hv2
  · -- parseMembers
    intro s ms rest h
    rw [parseMembers_succ] at h
    split_ifs at h with hq
    obtain ⟨kr, hkr, hbody⟩ := Option.bind_eq_some.mp h
    replace hbody : (if startsWithCh (skipWsL kr.2) ':' = true then
        (parseVal f (skipWsL (skipWsL kr.2).tail)).bind (fun vr =>
          if startsWithCh (skipWsL vr.2) ',' = true then
            (parseMembers f (skipWsL (skipWsL vr.2).tail)).map
              (fun p => (JsonMembers.cons kr.1 vr.1 p.1, p.2))
          else if startsWithCh (skipWsL vr.2) '}' = true then
            some (JsonMembers.cons kr.1 vr.1 JsonMembers.nil, (skipWsL vr.2).tail)
          else none)
      else none) = some (ms, rest) := hbody
    have hk2 : kr.2 <:+ s := (parseStrBody_suffix f s.tail kr.1 kr.2 hkr).trans
      (List.tail_suffix s)
    split_ifs at hbody with hc1
    obtain ⟨vr, hvr, hbody2⟩ := Option.bind_eq_some.mp hbody
    replace hbody2 : (if startsWithCh (skipWsL vr.2) ',' = true then
        (parseMembers f (skipWsL (skipWsL vr.2).tail)).map
          (fun p => (JsonMembers.cons kr.1 vr.1 p.1, p.2))
      else if startsWithCh (skipWsL vr.2) '}' = true then
        some (JsonMembers.cons kr.1 vr.1 JsonMembers.nil, (skipWsL vr.2).tail)
      else none) = some (ms, rest) := hbody2
    have hv2 : vr.2 <:+ s :=
      ((ihV (skipWsL (skipWsL kr.2).tail) vr.1 vr.2 (by rw [hvr])).1.trans
        (((List.dropWhile_suffix _).trans (List.tail_suffix _)).trans
          ((List.dropWhile_suffix _).trans hk2)))
    split_ifs at hbody2 with hd1 hd2
    · obtain ⟨p, hp, hpe⟩ := Option.map_eq_some'.mp hbody2
      obtain ⟨-, hr⟩ := Prod.mk.inj hpe
      have hm := ihM _ p.1 p.2 hp
      refine (hr ▸ hm).trans ?_
      exact ((List.dropWhile_suffix _).trans (List.tail_suffix _)).trans
        ((List.dropWhile_suffix _).trans hv2)
    · obtain ⟨-, hr⟩ := Prod.mk.inj (Option.some.inj hbody2)
      have hsk : skipWsL vr.2 = '}' :: (skipWsL vr.2).tail := startsWithCh_eq _ _ hd2
      have : ('}' :: rest) <:+ skipWsL vr.2 := by
        rw [← hr, ← hsk]
      exact (this.trans (List.dropWhile_suffix _)).trans hv2

theorem isJsonWs_isPyWs (c : Char) (h : isJsonWs c = true) : isPyWs c = true := by
  simp only [isJsonWs, Bool.or_eq_true, decide_eq_true_eq] at h
  rcases h with ((h | h) | h) | h <;> subst h <;> decide

theorem dropTrailing_decomp (p : Char → Bool) (a : List Char) (d : Char) (b : List Char)
    (hd : p d = false) (hb : ∀ c ∈ b, p c = true) :
    dropTrailing p (a ++ d :: b) = a ++ [d] := by
  unfold dropTrailing
  have hrev : (a ++ d :: b).reverse = b.reverse ++ (d :: a.reverse) := by
    simp
  rw [hrev]
  rw [dropWhile_append_all p b.reverse _ (fun c hc => hb c (List.mem_reverse.mp hc))]
  rw [dropWhile_eq_self_of_head p d a.reverse hd]
  simp

/-- If a text parses (as `json.loads` does) to a JSON object, then the
stripped text starts with `{` and ends with `}` — which is exactly the guard
the materializer checks before calling the JSON decoder. -/
theorem parseJson_obj_guard (rt : List Char) (kvs : JsonMembers)
    (h : parseJson rt = some (Json.obj kvs)) :
    startsWithCh (pyStrip rt) '{' = true ∧ endsWithCh (pyStrip rt) '}' = true := by
  unfold parseJson at h
  rcases hv : parseVal (rt.length + 1) (skipWsL rt) with _ | ⟨v, rest⟩
  · rw [hv] at h
    simp at h
  · rw [hv] at h
    replace h : (if (skipWsL rest).isEmpty = true then some v else none) =
        some (Json.obj kvs) := h
    split_ifs at h with hemp
    have hveq : v = Json.obj kvs := Option.some.inj h
    obtain ⟨⟨t, hs0⟩, hsuffix⟩ :=
      ((parse_suffix_aux (rt.length + 1)).1 (skipWsL rt) v rest hv).2 kvs hveq
    obtain ⟨pre, hpre⟩ := hsuffix
    have hrestws : ∀ c ∈ rest, isPyWs c = true := by
      intro c hc
      have : rest.dropWhile isJsonWs = [] := by
        rwa [List.isEmpty_iff] at hemp
      exact isJsonWs_isPyWs c (List.dropWhile_eq_nil_iff.mp this c hc)
    have hdw : rt.dropWhile isPyWs = skipWsL rt := by
      conv_lhs => rw [← List.takeWhile_append_dropWhile (p := isJsonWs) (l := rt)]
      rw [dropWhile_append_all isPyWs _ _
        (fun c hc => isJsonWs_isPyWs c (List.mem_takeWhile_imp hc))]
      show (skipWsL rt).dropWhile isPyWs = skipWsL rt
      rw [hs0]
      exact dropWhile_eq_self_of_head isPyWs '{' t (by decide)
    have hstrip : pyStrip rt = pre ++ ['}'] := by
      unfold pyStrip
      rw [hdw, ← hpre]
      exact dropTrailing_decomp isPyWs pre '}' rest (by decide) hrestws
    have hprehead : ∃ pre0, pre = '{' :: pre0 := by
      cases pre with
      | nil =>
        rw [List.nil_append] at hpre
        rw [hs0] at hpre
        exact absurd (List.cons.inj hpre).1 (by decide)
      | cons c0 pre0 =>
        rw [hs0, List.cons_append] at hpre
        exact ⟨pre0, by rw [(List.cons.inj hpre).1]⟩
    obtain ⟨pre0, hpre0⟩ := hprehead
    constructor
    · rw [hstrip, hpre0, List.cons_append]
      exact startsWithCh_self '{' _
    · rw [hstrip]
      rw [endsWithCh_iff]
      rw [List.getLast?_concat]

/-! ### Generation Client (`modules/llm_client.py`)

The HTTP/streaming backend is an oracle: a call either raises (transport or
backend error) or yields a stream of chunks, each with its arrival time
(elapsed seconds since the call started) and its `delta.content` (Python
`None` is `Option.none`).  `total_time` is the elapsed time when the stream
ends. -/

structure Metrics where
  time_to_first_token : ℚ
  total_tokens : ℤ
  tokens_per_second : ℚ
  total_time : ℚ
deriving DecidableEq

def zeroMetrics : Metrics :=
  { time_to_first_token := 0, total_tokens := 0, tokens_per_second := 0, total_time := 0 }

structure StreamChunk where
  arrival : ℚ
  content : Option (List Char)
deriving DecidableEq

inductive StreamOutcome where
  | raises (msg : List Char)
  | stream (chunks : List StreamChunk) (total_time : ℚ)

/-- Python `int(q)` for the non-negative rationals produced by the token
accumulator (truncation toward zero). -/
def pyIntTrunc (q : ℚ) : ℤ := q.num.tdiv (q.den : ℤ)

/-- The streaming loop of `generate_response_with_metrics` /
`generate_structured_response_with_metrics` (llm_client.py lines 204-214 and
275-285): threads `first_token_time`, the running `total_tokens`, and the
accumulated `response_text`. -/
def streamLoop : List StreamChunk → Option ℚ → ℚ → List Char → Option ℚ × ℚ × List Char
  | [], ftt, toks, txt => (ftt, toks, txt)
  | c :: rest, ftt, toks, txt =>
    let ftt2 := match ftt with
      | none => some c.arrival
      | some x => some x
    match c.content with
    | some s =>
      if s.isEmpty then streamLoop rest ftt2 toks txt
      else streamLoop rest ftt2 (toks + (s.length : ℚ) / 4) (txt ++ s)
    | none => streamLoop rest ftt2 toks txt

/-- Metric assembly after the stream ends (llm_client.py lines 216-235). -/
def runStreamMetrics (chunks : List StreamChunk) (total_time : ℚ) : List Char × Metrics :=
  let r := streamLoop chunks none 0 []
  let tokens_per_second := if 0 < total_time then r.2.1 / total_time else 0
  let first_token_time := match r.1 with
    | none => total_time
    | some x => x
  (r.2.2,
    { time_to_first_token := first_token_time,
      total_tokens := pyIntTrunc r.2.1,
      tokens_per_second := tokens_per_second,
      total_time := total_time })

/-- `generate_response_with_metrics` (llm_client.py lines 176-244): on any
exception it returns empty text and the all-zero metrics dict. -/
def generate_response_with_metrics : StreamOutcome → List Char × Metrics
  | .raises _ => ([], zeroMetrics)
  | .stream chunks t => runStreamMetrics chunks t

/-- `generate_structured_response_with_metrics` (llm_client.py lines 246-315):
the request adds a `response_format` schema, but the streaming loop and the
error handler are character-for-character the same as the plain variant. -/
def generate_structured_response_with_metrics : StreamOutcome → List Char × Metrics
  | .raises _ => ([], zeroMetrics)
  | .stream chunks t => runStreamMetrics chunks t

inductive TextOutcome where
  | raises (msg : List Char)
  | ok (text : List Char)

def errTextIntro : List Char := "Error generating response: ".toList

/-- `generate_text` (llm_client.py lines 82-105): on exception it returns the
string `"Error generating response: {e}"` (an error-description string, not
empty text, and no metrics). -/
def generate_text : TextOutcome → List Char
  | .ok t => t
  | .raises e => errTextIntro ++ e

/-! `generate_structured_json` (llm_client.py lines 107-174).  A pydantic
schema is a sequence of named fields; the error handler compares each field's
`annotation` for equality with the bare types `str`, `int`, `float`, `bool`,
`list`, `dict`.  Any other annotation — including parametrized generics such
as `List[Message]`, which are not `==` to `list` in Python — falls to the
final branch, which uses the field's declared `default_factory` if there is
one and `None` otherwise. -/

inductive PyAnn where
  | strA
  | intA
  | floatA
  | boolA
  | listA
  | dictA
  | generic (factory : Option Json)
deriving DecidableEq

def explKey : List Char := "explanation".toList

def errExplIntro : List Char := "Error generating explanation: ".toList

/-- Default value assigned to one schema field by the `except` branch of
`generate_structured_json` (llm_client.py lines 154-173). -/
def defaultFieldValue (e : List Char) (name : List Char) (ann : PyAnn) : Json :=
  if name = explKey then Json.str (errExplIntro ++ e)
  else match ann with
  | .strA => Json.str []
  | .intA => Json.num 0
  | .floatA => Json.num 0
  | .boolA => Json.boolJ false
  | .listA => Json.arr JsonList.nil
  | .dictA => Json.obj JsonMembers.nil
  | .generic (some v) => v
  | .generic none => Json.null

inductive StructuredOutcome where
  | raises (msg : List Char)
  | ok (content : Json)

def noExplText : List Char := "No explanation provided by the model.".toList

def hasField (fields : List (List Char × PyAnn)) (name : List Char) : Bool :=
  fields.any (fun f => f.1 = name)

/-- The `default_values` dict built by the `except` branch, one entry per
schema field in declaration order (llm_client.py lines 152-174). -/
def defaultMembers (e : List Char) : List (List Char × PyAnn) → JsonMembers
  | [] => JsonMembers.nil
  | f :: rest => JsonMembers.cons f.1 (defaultFieldValue e f.1 f.2) (defaultMembers e rest)

/-- `generate_structured_json` (llm_client.py lines 107-174): on success the
parsed JSON content, with a default `explanation` injected when the schema
declares one and the model omitted it; on any exception, one default value
per declared schema field. -/
def generate_structured_json (fields : List (List Char × PyAnn)) :
    StructuredOutcome → Json
  | .ok c =>
    match c with
    | Json.obj kvs =>
      if hasField fields explKey ∧ memLookup kvs explKey = none then
        Json.obj (JsonMembers.cons explKey (Json.str noExplText) kvs)
      else Json.obj kvs
    | other => other
  | .raises e => Json.obj (defaultMembers e fields)

/-! ### Configuration aggregates (`models/YAMLConfig.py` lines 112-161)

The configuration document stores a response counter and five running sums;
averages are never stored — each is a `@property` computed on access. -/

structure Aggregates where
  total_responses_generated : ℤ
  tokens_per_second_sum : ℚ
  time_to_first_token_sum : ℚ
  queries_per_second_sum : ℚ
  average_latency_sum : ℚ
  total_tokens_sum : ℤ
deriving DecidableEq

/-- `YAMLConfig.tokens_per_second` property (lines 133-137). -/
def Aggregates.tokens_per_second (a : Aggregates) : ℚ :=
  if 0 < a.total_responses_generated then
    a.tokens_per_second_sum / (a.total_responses_generated : ℚ)
  else 0

/-- `YAMLConfig.time_to_first_token` property (lines 139-143). -/
def Aggregates.time_to_first_token (a : Aggregates) : ℚ :=
  if 0 < a.total_responses_generated then
    a.time_to_first_token_sum / (a.total_responses_generated : ℚ)
  else 0

/-- `YAMLConfig.queries_per_second` property (lines 145-149). -/
def Aggregates.queries_per_second (a : Aggregates) : ℚ :=
  if 0 < a.total_responses_generated then
    a.queries_per_second_sum / (a.total_responses_generated : ℚ)
  else 0

/-- `YAMLConfig.average_latency` property (lines 151-155). -/
def Aggregates.average_latency (a : Aggregates) : ℚ :=
  if 0 < a.total_responses_generated then
    a.average_latency_sum / (a.total_responses_generated : ℚ)
  else 0

/-- `YAMLConfig.average_tokens` property (lines 157-161). -/
def Aggregates.average_tokens (a : Aggregates) : ℚ :=
  if 0 < a.total_responses_generated then
    (a.total_tokens_sum : ℚ) / (a.total_responses_generated : ℚ)
  else 0

/-! ### Sample Worker (`generate_sample_response`, processor.py lines 545-651) -/

/-- One sample's contribution to the configuration aggregates. -/
structure Contribution where
  tps : ℚ
  ttft_ms : ℚ
  qps : ℚ
  latency_ms : ℚ
  tokens : ℤ
deriving DecidableEq

/-- The single atomic `update_one(inc__...)` call (processor.py lines
633-642): one commutative per-field addition. -/
def applyContribution (a : Aggregates) (c : Contribution) : Aggregates :=
  { total_responses_generated := a.total_responses_generated + 1,
    tokens_per_second_sum := a.tokens_per_second_sum + c.tps,
    time_to_first_token_sum := a.time_to_first_token_sum + c.ttft_ms,
    queries_per_second_sum := a.queries_per_second_sum + c.qps,
    average_latency_sum := a.average_latency_sum + c.latency_ms,
    total_tokens_sum := a.total_tokens_sum + c.tokens }

/-- A persisted `SampleResponse` document (models/SampleResponse.py). -/
structure SampleRec where
  yaml_config_id : List Char
  temperature : ℚ
  top_p : ℚ
  prompt : List Char
  input_request : Option (List Char)
  max_tokens : ℤ
  seed_value : ℤ
  model : List Char
  response_text : List Char
  tokens_per_second : ℚ
  time_to_first_token : ℚ
  latency : ℚ
  total_tokens : ℤ
deriving DecidableEq

def ctxMarker : List Char := "Context for this dataset:".toList

def genMarker : List Char := "Generate a realistic".toList

/-- Input-request extraction from the rendered prompt (processor.py lines
562-570); `none` when the marker is absent. -/
def extractInputRequest (prompt : List Char) : Option (List Char) :=
  if pyContains prompt ctxMarker then
    match pySplit prompt ctxMarker with
    | _ :: p1 :: _ =>
      let ir := pyStrip p1
      if pyContains ir genMarker then
        some (pyStrip ((pySplit ir genMarker).headD []))
      else some ir
    | _ => none
  else none

/-- Oracle for the worker's three effectful steps: the generation call, the
`SampleResponse(...).save()`, and the `update_one` aggregate increment; a
`True` flag means that call raises.  `latency_ms` is the measured wall-clock
latency `(end_time - start_time) * 1000`. -/
structure WorkerEnv where
  genThrows : Bool
  genText : List Char
  genMetrics : Metrics
  latency_ms : ℚ
  saveThrows : Bool
  updateThrows : Bool

structure WorkerState where
  samples : List SampleRec
  agg : Aggregates
deriving DecidableEq

/-- The record built and saved by the worker (processor.py lines 610-624). -/
def workerRecord (env : WorkerEnv) (yaml_config_id : List Char)
    (temperature top_p : ℚ) (prompt : List Char) (max_tokens seed_value : ℤ)
    (model : List Char) : SampleRec :=
  { yaml_config_id := yaml_config_id,
    temperature := temperature,
    top_p := top_p,
    prompt := prompt,
    input_request := extractInputRequest prompt,
    max_tokens := max_tokens,
    seed_value := seed_value,
    model := model,
    response_text := env.genText,
    tokens_per_second := env.genMetrics.tokens_per_second,
    time_to_first_token := env.genMetrics.time_to_first_token * 1000,
    latency := env.latency_ms,
    total_tokens := env.genMetrics.total_tokens }

/-- The contribution folded into the configuration (processor.py lines
629-642), with the just-in-time `qps = 1000 / latency_ms if latency_ms > 0
else 0`. -/
def workerContribution (env : WorkerEnv) : Contribution :=
  { tps := env.genMetrics.tokens_per_second,
    ttft_ms := env.genMetrics.time_to_first_token * 1000,
    qps := if 0 < env.latency_ms then 1000 / env.latency_ms else 0,
    latency_ms := env.latency_ms,
    tokens := env.genMetrics.total_tokens }

/-- The worker `generate_sample_response` (processor.py lines 545-651).  The
best-effort JSON validation of the response (lines 586-603) only prints
warnings — `json.loads` errors are caught and `len` is guarded by an
`isinstance(..., list)` check — so it neither raises nor changes state and is
omitted.  Each oracle flag set to `True` raises at that step, landing in the
outer `except` which returns `False`. -/
def generate_sample_response (env : WorkerEnv) (yaml_config_id : List Char)
    (temperature top_p : ℚ) (prompt : List Char) (max_tokens seed_value : ℤ)
    (model : List Char) (st : WorkerState) : Bool × WorkerState :=
  if env.genThrows then (false, st)
  else if env.saveThrows then (false, st)
  else
    let st1 : WorkerState := { st with samples := st.samples ++
      [workerRecord env yaml_config_id temperature top_p prompt max_tokens seed_value model] }
    if env.updateThrows then (false, st1)
    else (true, { st1 with agg := applyContribution st1.agg (workerContribution env) })

/-! ### Dataset Materializer (`upload_dataset`, processor.py lines 251-409)

Per-sample emission (lines 292-328).  A sample contributes at most one line:
the re-serialized parsed object, a synthesized two-message entry, the
sanitized raw text — or nothing, when processing it raises (the per-sample
`except` logs and continues). -/

def msgKey : List Char := "messages".toList

def roleKey : List Char := "role".toList

def contentKey : List Char := "content".toList

/-- `{"role": "user", "content": u}` -/
def mkUserMsg (u : List Char) : Json :=
  Json.obj (JsonMembers.cons roleKey (Json.str "user".toList)
    (JsonMembers.cons contentKey (Json.str u) JsonMembers.nil))

/-- `{"role": "assistant", "content": a}` -/
def mkAssistantMsg (a : List Char) : Json :=
  Json.obj (JsonMembers.cons roleKey (Json.str "assistant".toList)
    (JsonMembers.cons contentKey (Json.str a) JsonMembers.nil))

/-- The synthesized fine-tuning entry (processor.py lines 312-317). -/
def mkMessagesEntry (u a : List Char) : Json :=
  Json.obj (JsonMembers.cons msgKey
    (Json.arr (JsonList.cons (mkUserMsg u) (JsonList.cons (mkAssistantMsg a) JsonList.nil)))
    JsonMembers.nil)

/-- `response_text.replace('\n', ' ').replace('\r', ' ')`
(processor.py line 321). -/
def sanitizeLine (rt : List Char) : List Char :=
  rt.map (fun c => if c = '\n' then ' ' else if c = '\r' then ' ' else c)

/-- Python truthiness of `getattr(sample, 'input_request', None)`:
`None` and the empty string are falsy. -/
def truthyOpt : Option (List Char) → Bool
  | none => false
  | some s => !s.isEmpty

/-- The fallback entry (processor.py lines 309-322). -/
def fallbackEntry (ir : Option (List Char)) (rt : List Char) : Option (List Char) :=
  if truthyOpt ir && !rt.isEmpty then
    some (dumpV (mkMessagesEntry (ir.getD []) rt))
  else
    some (sanitizeLine rt)

/-- Processing of one sample inside the writer loop (processor.py lines
293-325): `some line` is the one line written for this sample, `none` means
its processing raised (here: `len` on a `messages` value that has no length)
and the per-sample `except` skipped it. -/
def processSample (ir : Option (List Char)) (rt : List Char) : Option (List Char) :=
  if startsWithCh (pyStrip rt) '{' && endsWithCh (pyStrip rt) '}' then
    match parseJson rt with
    | some (Json.obj kvs) =>
      (match memLookup kvs msgKey with
       | some mv =>
         (match pyLen mv with
          | some n => if n = 2 then some (dumpV (Json.obj kvs)) else fallbackEntry ir rt
          | none => none)
       | none => fallbackEntry ir rt)
    | some _ => fallbackEntry ir rt
    | none => fallbackEntry ir rt
  else fallbackEntry ir rt

/-- The writer loop over all samples of the configuration: the lines of
the `.jsonl` file, in iteration order. -/
def materializeLines (samples : List (Option (List Char) × List Char)) : List (List Char) :=
  samples.filterMap (fun p => processSample p.1 p.2)

/-! ### Remote publish (`upload_dataset`, processor.py lines 337-409) -/

structure UploadEnv where
  apiKey : List Char
  accountId : List Char
  newUuid : List Char
  createResult : JsonMembers
  uploadRaises : Bool
  uploadRaiseMsg : List Char
  uploadResult : JsonMembers

structure UploadState where
  dataset_id : Option (List Char)
  dataset_uploaded : Bool
  dataset_upload_response : Option Json
deriving DecidableEq

structure UploadOut where
  ret : Json
  createCalled : Bool
  uploadCalled : Bool
  state : UploadState
deriving DecidableEq

def errKey : List Char := "error".toList

def notConfiguredMsg : List Char := "API credentials not configured".toList

def notConfiguredResp : Json :=
  Json.obj (JsonMembers.cons errKey (Json.str notConfiguredMsg) JsonMembers.nil)

def datasetIdNamespace : List Char := "generatedsyntheticdataset".toList

/-- The publish tail of `upload_dataset` (processor.py lines 337-409), after
the local file has been written.  `createResult` / `uploadResult` are the
dictionaries returned by the two `LLMClient` calls (each returns
`{"error": ...}` instead of raising on a `RequestException`);
`uploadRaises` models an exception escaping the upload call (e.g.
`FileNotFoundError`), which lands in the outer `except` and returns
`{"error": str(e)}` without saving any further state. -/
def upload_dataset_publish (env : UploadEnv) (datasetPath : List Char)
    (st : UploadState) : UploadOut :=
  if env.apiKey.isEmpty || env.accountId.isEmpty then
    { ret := Json.obj (JsonMembers.cons "status".toList (Json.str "file_created_only".toList)
        (JsonMembers.cons errKey (Json.str notConfiguredMsg)
        (JsonMembers.cons "file_path".toList (Json.str datasetPath) JsonMembers.nil))),
      createCalled := false, uploadCalled := false,
      state := { st with
        dataset_uploaded := false,
        dataset_upload_response := some notConfiguredResp } }
  else
    let did := match st.dataset_id with
      | some d => if d.isEmpty then env.newUuid else d
      | none => env.newUuid
    let st1 : UploadState := { st with dataset_id := some did }
    let fullId := datasetIdNamespace ++ did
    if (memLookup env.createResult errKey).isSome then
      { ret := Json.obj env.createResult, createCalled := true, uploadCalled := false,
        state := { st1 with dataset_upload_response := some (Json.obj env.createResult) } }
    else if env.uploadRaises then
      { ret := Json.obj (JsonMembers.cons errKey (Json.str env.uploadRaiseMsg) JsonMembers.nil),
        createCalled := true, uploadCalled := true, state := st1 }
    else
      { ret := Json.obj (JsonMembers.cons "creation".toList (Json.obj env.createResult)
          (JsonMembers.cons "upload".toList (Json.obj env.uploadResult)
          (JsonMembers.cons "file_path".toList (Json.str datasetPath)
          (JsonMembers.cons "dataset_id".toList (Json.str fullId) JsonMembers.nil)))),
        createCalled := true, uploadCalled := true,
        state := { st1 with
          dataset_uploaded := true,
          dataset_upload_response := some (Json.obj (JsonMembers.cons "creation".toList
            (Json.obj env.createResult)
            (JsonMembers.cons "upload".toList (Json.obj env.uploadResult)
            (JsonMembers.cons "file_path".toList (Json.str datasetPath)
            (JsonMembers.cons "dataset_id".toList (Json.str fullId) JsonMembers.nil))))) } }

/-! ### Stream-metric lemmas and claims C2-C8 -/

/-- The concatenation of the delivered chunk contents (absent contents count
as nothing). -/
def deliveredText : List StreamChunk → List Char
  | [] => []
  | c :: rest => (match c.content with | some s => s | none => []) ++ deliveredText rest

/-- Spec-side quantity, modelled from the spec's words for comparison with
the code: the elapsed time of the first chunk with non-empty content, or the
total elapsed time when no such chunk exists. -/
def firstNonEmptyArrival : List StreamChunk → ℚ → ℚ
  | [], t => t
  | c :: rest, t =>
    match c.content with
    | some s => if s.isEmpty then firstNonEmptyArrival rest t else c.arrival
    | none => firstNonEmptyArrival rest t

theorem streamLoop_some (chunks : List StreamChunk) : ∀ (x toks : ℚ) (txt : List Char),
    streamLoop chunks (some x) toks txt =
      (some x, toks + ((deliveredText chunks).length : ℚ) / 4, txt ++ deliveredText chunks) := by
  induction chunks with
  | nil => intro x toks txt; simp [streamLoop, deliveredText]
  | cons c rest ih =>
    intro x toks txt
    rcases h : c.content with _ | s
    · simp [streamLoop, h, deliveredText, ih]
    · cases s with
      | nil => simp [streamLoop, h, deliveredText, ih]
      | cons d ds =>
        simp only [streamLoop, h, List.isEmpty_cons, deliveredText, ih, Bool.false_eq_true,
          if_false, Prod.mk.injEq, List.append_assoc, List.length_append, List.length_cons]
        refine ⟨trivial, by push_cast; ring, trivial⟩

theorem streamLoop_none_cons (c : StreamChunk) (rest : List StreamChunk) :
    streamLoop (c :: rest) none 0 [] =
      (some c.arrival, ((deliveredText (c :: rest)).length : ℚ) / 4,
        deliveredText (c :: rest)) := by
  rcases h : c.content with _ | s
  · simp [streamLoop, h, deliveredText, streamLoop_some]
  · cases s with
    | nil => simp [streamLoop, h, deliveredText, streamLoop_some]
    | cons d ds =>
      simp only [streamLoop, h, List.isEmpty_cons, Bool.false_eq_true, if_false,
        streamLoop_some, deliveredText, Prod.mk.injEq, List.length_append, List.length_cons,
        List.nil_append]
      refine ⟨trivial, by push_cast; ring, trivial⟩

/-- Claim C2: the Sample Worker returns a boolean; on success it appends
exactly one complete Sample Record and folds exactly this sample's
contribution into the configuration counters — counter +1, tokens/sec,
time-to-first-token in milliseconds, `1000/latency_ms` (0 when latency is 0),
latency in milliseconds, and total tokens, each a commutative per-field
addition — and returns `true`; an exception at any step returns `false` with
no partial record and with the aggregates of unreached steps untouched. -/
theorem claim_C2_worker_semantics (env : WorkerEnv) (cid : List Char)
    (temp tp : ℚ) (pr : List Char) (mt sv : ℤ) (mdl : List Char) (st : WorkerState) :
    (env.genThrows = false → env.saveThrows = false → env.updateThrows = false →
      generate_sample_response env cid temp tp pr mt sv mdl st =
        (true,
          { samples := st.samples ++ [workerRecord env cid temp tp pr mt sv mdl],
            agg := applyContribution st.agg (workerContribution env) })) ∧
    ((workerContribution env).qps =
        (if 0 < env.latency_ms then 1000 / env.latency_ms else 0)) ∧
    ((workerContribution env).ttft_ms = env.genMetrics.time_to_first_token * 1000) ∧
    ((workerContribution env).tps = env.genMetrics.tokens_per_second) ∧
    ((workerContribution env).latency_ms = env.latency_ms) ∧
    ((workerContribution env).tokens = env.genMetrics.total_tokens) ∧
    (∀ (a : Aggregates) (c : Contribution),
      (applyContribution a c).total_responses_generated = a.total_responses_generated + 1 ∧
      (applyContribution a c).tokens_per_second_sum = a.tokens_per_second_sum + c.tps ∧
      (applyContribution a c).time_to_first_token_sum = a.time_to_first_token_sum + c.ttft_ms ∧
      (applyContribution a c).queries_per_second_sum = a.queries_per_second_sum + c.qps ∧
      (applyContribution a c).average_latency_sum = a.average_latency_sum + c.latency_ms ∧
      (applyContribution a c).total_tokens_sum = a.total_tokens_sum + c.tokens) ∧
    (∀ (a : Aggregates) (c₁ c₂ : Contribution),
      applyContribution (applyContribution a c₁) c₂ =
        applyContribution (applyContribution a c₂) c₁) ∧
    (env.genThrows = true →
      generate_sample_response env cid temp tp pr mt sv mdl st = (false, st)) ∧
    (env.genThrows = false → env.saveThrows = true →
      generate_sample_response env cid temp tp pr mt sv mdl st = (false, st)) ∧
    (env.genThrows = false → env.saveThrows = false → env.updateThrows = true →
      generate_sample_response env cid temp tp pr mt sv mdl st =
        (false, { st with samples :=
          st.samples ++ [workerRecord env cid temp tp pr mt sv mdl] })) := by
  refine ⟨?_, rfl, rfl, rfl, rfl, rfl, ?_, ?_, ?_, ?_, ?_⟩
  · intro h1 h2 h3
    simp [generate_sample_response, h1, h2, h3]
  · intro a c
    simp [applyContribution]
  · intro a c₁ c₂
    simp only [applyContribution, Aggregates.mk.injEq]
    refine ⟨by ring, by ring, by ring, by ring, by ring, by ring⟩
  · intro h1
    simp [generate_sample_response, h1]
  · intro h1 h2
    simp [generate_sample_response, h1, h2]
  · intro h1 h2 h3
    simp [generate_sample_response, h1, h2, h3]

/-- Claim C3: each derived configuration metric is the stored sum divided by
`total_responses_generated` when that counter is positive, and 0 when the
counter is 0; the `Aggregates` state holds only the counter and the five
sums, never a stored average. -/
theorem claim_C3_derived_averages (a : Aggregates) :
    (0 < a.total_responses_generated →
      (a.tokens_per_second = a.tokens_per_second_sum / (a.total_responses_generated : ℚ) ∧
       a.time_to_first_token = a.time_to_first_token_sum / (a.total_responses_generated : ℚ) ∧
       a.queries_per_second = a.queries_per_second_sum / (a.total_responses_generated : ℚ) ∧
       a.average_latency = a.average_latency_sum / (a.total_responses_generated : ℚ) ∧
       a.average_tokens = (a.total_tokens_sum : ℚ) / (a.total_responses_generated : ℚ))) ∧
    (a.total_responses_generated = 0 →
      (a.tokens_per_second = 0 ∧ a.time_to_first_token = 0 ∧ a.queries_per_second = 0 ∧
       a.average_latency = 0 ∧ a.average_tokens = 0)) := by
  constructor
  · intro h
    simp [Aggregates.tokens_per_second, Aggregates.time_to_first_token,
      Aggregates.queries_per_second, Aggregates.average_latency, Aggregates.average_tokens, h]
  · intro h
    simp [Aggregates.tokens_per_second, Aggregates.time_to_first_token,
      Aggregates.queries_per_second, Aggregates.average_latency, Aggregates.average_tokens, h]

/-- Claim C4 (counterexample): when the backend raises, `generate_text` does
not return an empty text result — it returns the error-description string
`"Error generating response: {e}"`. -/
theorem claim_C4_counterexample :
    generate_text (TextOutcome.raises "boom".toList) =
      "Error generating response: boom".toList ∧
    "Error generating response: boom".toList ≠ ([] : List Char) := by
  exact ⟨by decide, by decide⟩

/-- Claim C4 (amended): the two metric-returning generation operations catch
any backend/transport error and return exactly `("", all-zero metrics)`;
`generate_text` also catches every error, but returns the non-empty string
`"Error generating response: {e}"` rather than empty text. -/
theorem claim_C4_error_policy :
    (∀ e, generate_response_with_metrics (StreamOutcome.raises e) = ([], zeroMetrics)) ∧
    (∀ e, generate_structured_response_with_metrics (StreamOutcome.raises e) =
        ([], zeroMetrics)) ∧
    (∀ e, generate_text (TextOutcome.raises e) = errTextIntro ++ e) ∧
    (∀ e, generate_text (TextOutcome.raises e) ≠ []) := by
  refine ⟨fun e => rfl, fun e => rfl, fun e => rfl, fun e => ?_⟩
  simp [generate_text, errTextIntro]

/-- Claim C5 (counterexample): a schema whose one field `messages` is
annotated with the parametrized generic `List[Message]` — a collection field,
but not `==` to the bare type `list` — receives `null` (its annotation falls
to the default-factory branch, and `ResponseStructure.messages` declares no
factory), not the empty list the claim promises for collection fields. -/
theorem claim_C5_counterexample :
    generate_structured_json [("messages".toList, PyAnn.generic none)]
        (StructuredOutcome.raises "boom".toList) =
      Json.obj (JsonMembers.cons "messages".toList Json.null JsonMembers.nil) ∧
    Json.null ≠ Json.arr JsonList.nil := by
  exact ⟨by decide, by decide⟩

/-- Claim C5 (amended): on a backend error the structured variant returns one
default per declared schema field, in declaration order: `""` for `str`
fields, `0` for `int`/`float`, `false` for `bool`, `[]`/`{}` only for fields
annotated with the *bare* types `list`/`dict`; any other annotation
(including parametrized generics such as `List[Message]`) gets its declared
default factory's value, or `null` when there is none; a field literally
named `explanation` always gets the error description instead. -/
theorem claim_C5_structured_defaults (e : List Char) :
    (∀ fields, generate_structured_json fields (StructuredOutcome.raises e) =
        Json.obj (defaultMembers e fields)) ∧
    (∀ name ann rest, defaultMembers e ((name, ann) :: rest) =
        JsonMembers.cons name (defaultFieldValue e name ann) (defaultMembers e rest)) ∧
    (∀ name, name ≠ explKey →
        defaultFieldValue e name PyAnn.strA = Json.str [] ∧
        defaultFieldValue e name PyAnn.intA = Json.num 0 ∧
        defaultFieldValue e name PyAnn.floatA = Json.num 0 ∧
        defaultFieldValue e name PyAnn.boolA = Json.boolJ false ∧
        defaultFieldValue e name PyAnn.listA = Json.arr JsonList.nil ∧
        defaultFieldValue e name PyAnn.dictA = Json.obj JsonMembers.nil ∧
        (∀ fac, defaultFieldValue e name (PyAnn.generic fac) = fac.getD Json.null)) ∧
    (∀ ann, defaultFieldValue e explKey ann = Json.str (errExplIntro ++ e)) := by
  refine ⟨fun fields => rfl, fun name ann rest => rfl, fun name h => ?_, fun ann => by
    simp [defaultFieldValue]⟩
  refine ⟨?_, ?_, ?_, ?_, ?_, ?_, fun fac => ?_⟩
  · simp [defaultFieldValue, if_neg h]
  · simp [defaultFieldValue, if_neg h]
  · simp [defaultFieldValue, if_neg h]
  · simp [defaultFieldValue, if_neg h]
  · simp [defaultFieldValue, if_neg h]
  · simp [defaultFieldValue, if_neg h]
  · cases fac <;> simp [defaultFieldValue, if_neg h]

/-- Claim C6 (counterexample): with a first chunk at 1s carrying empty
content and a second chunk at 2s carrying `"abcd"`, the code reports
`time_to_first_token = 1` — the arrival of the first chunk, empty or not —
while the claimed "elapsed seconds until the first non-empty chunk" is 2. -/
theorem claim_C6_counterexample :
    (generate_response_with_metrics (StreamOutcome.stream
        [⟨1, some []⟩, ⟨2, some "abcd".toList⟩] 3)).2.time_to_first_token = 1 ∧
    firstNonEmptyArrival [⟨1, some []⟩, ⟨2, some "abcd".toList⟩] 3 = 2 ∧
    (1 : ℚ) ≠ 2 := by
  refine ⟨by decide, by decide, by decide⟩

/-- Claim C6 (amended): for a delivered stream, the returned text is the
concatenation of the chunk contents; `total_time` is the elapsed wall-clock
time; `total_tokens` is the accumulated `len(content)/4` truncated to an
integer; `tokens_per_second` is the *untruncated* accumulator divided by
`total_time` (0 when `total_time` is 0); and `time_to_first_token` is the
arrival time of the first chunk — whether or not its content is empty — or
`total_time` when no chunk arrived at all.  The structured variant computes
identically. -/
theorem claim_C6_stream_metrics (chunks : List StreamChunk) (t : ℚ) :
    ((generate_response_with_metrics (StreamOutcome.stream chunks t)).1 =
        deliveredText chunks) ∧
    ((generate_response_with_metrics (StreamOutcome.stream chunks t)).2.total_time = t) ∧
    ((generate_response_with_metrics (StreamOutcome.stream chunks t)).2.total_tokens =
        pyIntTrunc (((deliveredText chunks).length : ℚ) / 4)) ∧
    ((generate_response_with_metrics (StreamOutcome.stream chunks t)).2.tokens_per_second =
        (if 0 < t then ((deliveredText chunks).length : ℚ) / 4 / t else 0)) ∧
    (∀ c rest, chunks = c :: rest →
      (generate_response_with_metrics (StreamOutcome.stream chunks t)).2.time_to_first_token =
        c.arrival) ∧
    (chunks = [] →
      (generate_response_with_metrics (StreamOutcome.stream chunks t)).2.time_to_first_token =
        t) ∧
    (generate_structured_response_with_metrics (StreamOutcome.stream chunks t) =
      generate_response_with_metrics (StreamOutcome.stream chunks t)) := by
  have hbody : ∀ cs : List StreamChunk, streamLoop cs none 0 [] =
      ((match cs with | [] => none | c :: _ => some c.arrival),
        ((deliveredText cs).length : ℚ) / 4, deliveredText cs) := by
    intro cs
    cases cs with
    | nil => simp [streamLoop, deliveredText]
    | cons c rest => simpa using streamLoop_none_cons c rest
  cases chunks with
  | nil =>
    refine ⟨rfl, rfl, by simp [generate_response_with_metrics, runStreamMetrics,
      streamLoop, deliveredText], by simp [generate_response_with_metrics,
      runStreamMetrics, streamLoop, deliveredText], ?_, fun _ => rfl, rfl⟩
    intro c rest h
    exact absurd h (by simp)
  | cons c rest =>
    refine ⟨?_, rfl, ?_, ?_, ?_, ?_, rfl⟩
    · simp [generate_response_with_metrics, runStreamMetrics, hbody (c :: rest)]
    · simp [generate_response_with_metrics, runStreamMetrics, hbody (c :: rest)]
    · simp [generate_response_with_metrics, runStreamMetrics, hbody (c :: rest)]
    · intro c' rest' h
      obtain ⟨rfl, rfl⟩ : c = c' ∧ rest = rest' := by
        exact ⟨congrArg (fun l => l.headD c) h, congrArg List.tail h⟩
      simp [generate_response_with_metrics, runStreamMetrics, hbody (c :: rest)]
    · intro h
      exact absurd h (by simp)

def cexMsgObj : Json :=
  Json.obj (JsonMembers.cons msgKey (Json.str ['a', 'b']) JsonMembers.nil)

/-- Claim C7 (counterexample): a response text that parses as a JSON object
whose `messages` value is the two-character *string* `"ab"` — not a
two-element messages array — is still emitted verbatim (re-serialized), because
the code tests `len(parsed['messages']) == 2` without requiring an array; the
claim instead promises a synthesized messages object for this record, which
differs from the emitted line. -/
theorem claim_C7_counterexample :
    processSample (some ['x']) (dumpV cexMsgObj) = some (dumpV cexMsgObj) ∧
    pyLen (Json.str ['a', 'b']) = some 2 ∧
    some (dumpV cexMsgObj) ≠ some (dumpV (mkMessagesEntry ['x'] (dumpV cexMsgObj))) := by
  refine ⟨by decide, by decide, by decide⟩

/-- Claim C7 (amended): per record, the materializer emits: the re-serialized
parsed object when the text parses as a JSON object whose `messages` value
has Python length 2 (array or not), and that line parses back to the same
structure; nothing (record skipped by the per-sample handler) when the
`messages` value has no Python length; otherwise the fallback — a synthesized
`messages` entry when input request and response text are both non-empty
(which also parses back to itself), else the raw text with newlines and
carriage returns replaced by spaces; and one record's fate never affects the
lines of the others. -/
theorem claim_C7_materializer (ir : Option (List Char)) (rt : List Char) :
    (∀ kvs mv, parseJson rt = some (Json.obj kvs) → memLookup kvs msgKey = some mv →
        pyLen mv = some 2 →
        processSample ir rt = some (dumpV (Json.obj kvs)) ∧
        parseJson (dumpV (Json.obj kvs)) = some (Json.obj kvs)) ∧
    (∀ kvs mv, parseJson rt = some (Json.obj kvs) → memLookup kvs msgKey = some mv →
        pyLen mv = none → processSample ir rt = none) ∧
    (∀ kvs, parseJson rt = some (Json.obj kvs) → memLookup kvs msgKey = none →
        processSample ir rt = fallbackEntry ir rt) ∧
    (∀ kvs mv n, parseJson rt = some (Json.obj kvs) → memLookup kvs msgKey = some mv →
        pyLen mv = some n → n ≠ 2 → processSample ir rt = fallbackEntry ir rt) ∧
    (parseJson rt = none → processSample ir rt = fallbackEntry ir rt) ∧
    (∀ s, ir = some s → s ≠ [] → rt ≠ [] →
        fallbackEntry ir rt = some (dumpV (mkMessagesEntry s rt)) ∧
        parseJson (dumpV (mkMessagesEntry s rt)) = some (mkMessagesEntry s rt)) ∧
    ((ir = none ∨ ir = some []) → fallbackEntry ir rt = some (sanitizeLine rt)) ∧
    (rt = [] → fallbackEntry ir rt = some (sanitizeLine rt)) ∧
    (∀ c, c ∈ sanitizeLine rt → c ≠ '\n' ∧ c ≠ '\r') ∧
    (∀ xs ys, materializeLines (xs ++ ys) = materializeLines xs ++ materializeLines ys) := by
  refine ⟨?_, ?_, ?_, ?_, ?_, ?_, ?_, ?_, ?_, ?_⟩
  · intro kvs mv h hm hl
    obtain ⟨hg1, hg2⟩ := parseJson_obj_guard rt kvs h
    exact ⟨by simp [processSample, hg1, hg2, h, hm, hl], parseJson_dumpV _⟩
  · intro kvs mv h hm hl
    obtain ⟨hg1, hg2⟩ := parseJson_obj_guard rt kvs h
    simp [processSample, hg1, hg2, h, hm, hl]
  · intro kvs h hm
    obtain ⟨hg1, hg2⟩ := parseJson_obj_guard rt kvs h
    simp [processSample, hg1, hg2, h, hm]
  · intro kvs mv n h hm hl hn
    obtain ⟨hg1, hg2⟩ := parseJson_obj_guard rt kvs h
    simp [processSample, hg1, hg2, h, hm, hl, hn]
  · intro h
    by_cases hg : (startsWithCh (pyStrip rt) '{' && endsWithCh (pyStrip rt) '}') = true
    · simp [processSample, hg, h]
    · simp only [processSample]
      rw [if_neg hg]
  · intro s hir hs hrt
    subst hir
    cases s with
    | nil => exact absurd rfl hs
    | cons a as =>
      cases rt with
      | nil => exact absurd rfl hrt
      | cons b bs =>
        exact ⟨by simp [fallbackEntry, truthyOpt], parseJson_dumpV _⟩
  · intro h
    rcases h with rfl | rfl <;> simp [fallbackEntry, truthyOpt]
  · intro h
    subst h
    simp [fallbackEntry]
  · intro c hc
    simp only [sanitizeLine, List.mem_map] at hc
    obtain ⟨a, -, rfl⟩ := hc
    refine ⟨?_, ?_⟩ <;> split_ifs with h1 h2
    · decide
    · decide
    · exact h1
    · decide
    · decide
    · exact h2
  · intro xs ys
    simp [materializeLines, List.filterMap_append]

def cexUploadEnv : UploadEnv :=
  { apiKey := ['k'], accountId := ['a'], newUuid := ['u'],
    createResult := JsonMembers.nil, uploadRaises := false, uploadRaiseMsg := [],
    uploadResult := JsonMembers.cons errKey (Json.str "boom".toList) JsonMembers.nil }

/-- Claim C8 (counterexample): with credentials present and a successful
create call, an upload call that returns the error envelope
`{"error": "boom"}` (the client converts a `RequestException` into such a
dictionary instead of raising) still leaves the configuration flagged as
uploaded — the flag is set without inspecting the upload response, refuting
"only when both the create call and the upload call succeed". -/
theorem claim_C8_counterexample :
    (upload_dataset_publish cexUploadEnv ['p']
        ⟨none, false, none⟩).state.dataset_uploaded = true ∧
    memLookup cexUploadEnv.uploadResult errKey = some (Json.str "boom".toList) := by
  exact ⟨by decide, by decide⟩

/-- Claim C8 (amended): missing credentials short-circuit publish with the
structured `file_created_only` result recorded on the configuration (not an
error raise); a create-call error envelope means the upload is never
attempted, the failure response is recorded, and the uploaded flag is left
untouched; once the create response carries no `"error"` key and the upload
call returns (with any dictionary whatsoever, an `{"error": ...}` envelope
included), the uploaded flag is set and the combined payload stored; only an
exception escaping the upload call skips those updates. -/
theorem claim_C8_publish (env : UploadEnv) (p : List Char) (st : UploadState) :
    (env.apiKey = [] ∨ env.accountId = [] →
      upload_dataset_publish env p st =
        { ret := Json.obj (JsonMembers.cons "status".toList
            (Json.str "file_created_only".toList)
            (JsonMembers.cons errKey (Json.str notConfiguredMsg)
            (JsonMembers.cons "file_path".toList (Json.str p) JsonMembers.nil))),
          createCalled := false, uploadCalled := false,
          state := { st with
            dataset_uploaded := false,
            dataset_upload_response := some notConfiguredResp } }) ∧
    (env.apiKey ≠ [] → env.accountId ≠ [] →
      (memLookup env.createResult errKey).isSome = true →
      (upload_dataset_publish env p st).uploadCalled = false ∧
      (upload_dataset_publish env p st).ret = Json.obj env.createResult ∧
      (upload_dataset_publish env p st).state.dataset_upload_response =
        some (Json.obj env.createResult) ∧
      (upload_dataset_publish env p st).state.dataset_uploaded = st.dataset_uploaded) ∧
    (env.apiKey ≠ [] → env.accountId ≠ [] → memLookup env.createResult errKey = none →
      env.uploadRaises = false →
      (upload_dataset_publish env p st).createCalled = true ∧
      (upload_dataset_publish env p st).uploadCalled = true ∧
      (upload_dataset_publish env p st).state.dataset_uploaded = true ∧
      (upload_dataset_publish env p st).state.dataset_upload_response =
        some (upload_dataset_publish env p st).ret) ∧
    (env.apiKey ≠ [] → env.accountId ≠ [] → memLookup env.createResult errKey = none →
      env.uploadRaises = true →
      (upload_dataset_publish env p st).ret =
        Json.obj (JsonMembers.cons errKey (Json.str env.uploadRaiseMsg) JsonMembers.nil) ∧
      (upload_dataset_publish env p st).state.dataset_uploaded = st.dataset_uploaded ∧
      (upload_dataset_publish env p st).state.dataset_upload_response =
        st.dataset_upload_response) := by
  refine ⟨?_, ?_, ?_, ?_⟩
  · intro h
    have hc : (env.apiKey.isEmpty || env.accountId.isEmpty) = true := by
      rcases h with h | h <;> simp [h]
    simp [upload_dataset_publish, hc]
  · intro h1 h2 h3
    have hc : (env.apiKey.isEmpty || env.accountId.isEmpty) = false := by
      simp [h1, h2]
    simp [upload_dataset_publish, hc, h3]
  · intro h1 h2 h3 h4
    have hc : (env.apiKey.isEmpty || env.accountId.isEmpty) = false := by
      simp [h1, h2]
    simp [upload_dataset_publish, hc, h3, h4]
  · intro h1 h2 h3 h4
    have hc : (env.apiKey.isEmpty || env.accountId.isEmpty) = false := by
      simp [h1, h2]
    simp [upload_dataset_publish, hc, h3, h4]

end SDG
